import Mathlib

/-!
Verification of `hips2cotiff.py` (mugwort-rc/cohips): a tool repackaging a
HiPS tile pyramid into a Cloud-Optimized TIFF/BigTIFF container.

The definitions below are a shallow embedding of the Python source:
machine integers become `Nat`/`Int`, byte strings become `List Nat`
(each element a byte value), and fallible code (Python exceptions)
returns `Except`.
-/

/-! ### Address Mapper (source: `compress_bits`, `spread_bits`) -/

/-- Source `compress_bits` (hips2cotiff.py lines 278-285): SWAR gather of the
even-position bits of a 64-bit Morton index into a 32-bit coordinate. -/
def compress_bits (v : Nat) : Nat :=
  let res := v &&& 0x5555555555555555
  let res := (res ^^^ (res >>> 1)) &&& 0x3333333333333333
  let res := (res ^^^ (res >>> 2)) &&& 0x0f0f0f0f0f0f0f0f
  let res := (res ^^^ (res >>> 4)) &&& 0x00ff00ff00ff00ff
  let res := (res ^^^ (res >>> 8)) &&& 0x0000ffff0000ffff
  let res := (res ^^^ (res >>> 16)) &&& 0x00000000ffffffff
  res

/-- Source `spread_bits` (hips2cotiff.py lines 289-296): SWAR spread of a
32-bit coordinate onto the even bit positions of a 64-bit Morton index. -/
def spread_bits (v : Nat) : Nat :=
  let res := v &&& 0xffffffff
  let res := (res ^^^ (res <<< 16)) &&& 0x0000ffff0000ffff
  let res := (res ^^^ (res <<< 8)) &&& 0x00ff00ff00ff00ff
  let res := (res ^^^ (res <<< 4)) &&& 0x0f0f0f0f0f0f0f0f
  let res := (res ^^^ (res <<< 2)) &&& 0x3333333333333333
  let res := (res ^^^ (res <<< 1)) &&& 0x5555555555555555
  res

/-- The interleaving used inline in `main` (lines 353 and 373):
`(spread_bits(y) << 1) | spread_bits(x)`. -/
def interleave (x y : Nat) : Nat :=
  (spread_bits y <<< 1) ||| spread_bits x

/-- The inverse direction, as the spec states it:
`deinterleave(i) = (compress_bits(i), compress_bits(i >> 1))`. -/
def deinterleave (i : Nat) : Nat × Nat :=
  (compress_bits i, compress_bits (i >>> 1))

/-! ### Tile Locator (source: `main`, lines 343-353 and 364-374) -/

/-- The grid-cell to global quad-tree index mapping computed per tile in both
the offset pass (lines 344-353) and the write pass (lines 364-373) of `main`:
`nside = 1 << zoom`, `row = i // tile_count_x`, `col = i % tile_count_x`,
`f = (row // nside) * 4 + (col // nside)`, `x = row % nside`, `y = col % nside`,
`ti = f * nside**2 + ((spread_bits(y) << 1) | spread_bits(x))`. -/
def tileIndex (z i : Nat) : Nat :=
  let nside := 1 <<< z
  let tile_count_x := nside * 4
  let row := i / tile_count_x
  let col := i % tile_count_x
  let row0 := row / nside
  let col0 := col / nside
  let f := row0 * 4 + col0
  let x := row % nside
  let y := col % nside
  f * (nside * nside) + ((spread_bits y <<< 1) ||| spread_bits x)

/-- Source path constructed by the offset pass (line 354):
`os.path.join(root, f"Norder{zoom}", f"Dir{ti // 10000 * 100000}", f"Npix{ti}.jpg")`. -/
def srcPathOffsetPass (root : String) (zoom ti : Nat) : String :=
  root ++ "/Norder" ++ toString zoom ++ "/Dir" ++ toString (ti / 10000 * 100000)
    ++ "/Npix" ++ toString ti ++ ".jpg"

/-- Source path constructed by the write pass (line 374):
`os.path.join(root, f"Norder{zoom}", f"Dir{ti // 10000 * 10000}", f"Npix{ti}.jpg")`. -/
def srcPathWritePass (root : String) (zoom ti : Nat) : String :=
  root ++ "/Norder" ++ toString zoom ++ "/Dir" ++ toString (ti / 10000 * 10000)
    ++ "/Npix" ++ toString ti ++ ".jpg"

/-- Proof-side inverse of `tileIndex` (not part of the source; used to
establish the bijection contract). -/
def tileIndexInv (z t : Nat) : Nat :=
  let nside := 1 <<< z
  let f := t / (nside * nside)
  let r := t % (nside * nside)
  let x := compress_bits r
  let y := compress_bits (r >>> 1)
  (f / 4 * nside + x) * (nside * 4) + (f % 4 * nside + y)

/-! ### Field Model (source: `TiffType`, `TIFF_BYTES`, `TiffEntry`) -/

/-- The `TiffType` enumeration (lines 62-74). -/
inductive TiffType where
  | BYTE
  | ASCII
  | SHORT
  | LONG
  | RATIONAL
  | SBYTE
  | UNDEFINED
  | SSHORT
  | SLONG
  | SRATIONAL
  | FLOAT
  | DOUBLE
deriving DecidableEq, Inhabited

/-- The integer value of each enum member, as used by `int(self.type)`. -/
def TiffType.code : TiffType → Nat
  | .BYTE => 1
  | .ASCII => 2
  | .SHORT => 3
  | .LONG => 4
  | .RATIONAL => 5
  | .SBYTE => 6
  | .UNDEFINED => 7
  | .SSHORT => 8
  | .SLONG => 9
  | .SRATIONAL => 10
  | .FLOAT => 11
  | .DOUBLE => 12

/-- The `TIFF_BYTES` width table (lines 77-90). -/
def TIFF_BYTES : TiffType → Nat
  | .BYTE => 1
  | .ASCII => 1
  | .SHORT => 2
  | .LONG => 4
  | .RATIONAL => 8
  | .SBYTE => 1
  | .UNDEFINED => 1
  | .SSHORT => 2
  | .SLONG => 4
  | .SRATIONAL => 8
  | .FLOAT => 4
  | .DOUBLE => 8

/-- A Python `TiffEntry.value`: either a single scalar or a list of scalars
(the `isinstance(value, list)` distinction in the source). -/
inductive TiffValue where
  | scalar (v : Int)
  | list (vs : List Int)
deriving DecidableEq, Inhabited

/-- Python listification `if not isinstance(value, list): value = [value]`. -/
def TiffValue.toList : TiffValue → List Int
  | .scalar v => [v]
  | .list vs => vs

/-- One directory entry (`TiffEntry.__init__`, lines 93-98). -/
structure TiffEntry where
  id : Nat
  type : TiffType
  count : Nat
  value : TiffValue
deriving DecidableEq, Inhabited

/-- Python exceptions surfaced by the Field Model / Container Builder.
Members: `unsupported` models the two forms of `assert False` over an
unhandled field type; `structError` models `struct.error` (a value out of
range for its format code, an argument-count mismatch, or a non-integer
argument); `assertError` models the failing `assert self.count == 0` in
`tail`; `typeError` models `TypeError` (unpacking a non-iterable, or
`header += None` in `build_header`); `attrError` models `AttributeError`
(`tail` reads the nonexistent attribute `self.size` for ASCII). -/
inductive SerError where
  | unsupported
  | structError
  | assertError
  | typeError
  | attrError
deriving DecidableEq

/-- Little-endian byte encoding of a natural number into `w` bytes. -/
def leBytes : Nat → Nat → List Nat
  | 0, _ => []
  | w + 1, v => v % 256 :: leBytes w (v / 256)

/-- Little-endian decoding, the inverse of `leBytes`. -/
def decodeLE : List Nat → Nat
  | [] => 0
  | b :: rest => b + 256 * decodeLE rest

/-- `struct.pack` of one unsigned field of byte width `w` (format codes
`B`, `H`, `I`, `Q`): requires the value in `[0, 2^(8*w))`. -/
def packU (w : Nat) (v : Int) : Except SerError (List Nat) :=
  if 0 ≤ v ∧ v < 2 ^ (8 * w) then .ok (leBytes w v.toNat) else .error .structError

/-- `struct.pack` of one signed field of byte width `w` (format codes `b`,
`h`, `i`): two's complement, value in `[-2^(8w-1), 2^(8w-1))`. -/
def packS (w : Nat) (v : Int) : Except SerError (List Nat) :=
  if -(2 ^ (8 * w - 1)) ≤ v ∧ v < 2 ^ (8 * w - 1) then
    .ok (leBytes w (v.emod (2 ^ (8 * w))).toNat)
  else .error .structError

/-- `struct.pack` of one unsigned field whose argument is already a `Nat`
(tag ids, type codes, counts, offsets). -/
def packN (w v : Nat) : Except SerError (List Nat) :=
  if v < 2 ^ (8 * w) then .ok (leBytes w v) else .error .structError

/-- Packs each element of a list as an unsigned field of width `w` and
concatenates the encodings. -/
def packSeqU (w : Nat) : List Int → Except SerError (List Nat)
  | [] => .ok []
  | v :: vs => do
    let b ← packU w v
    let bs ← packSeqU w vs
    .ok (b ++ bs)

/-- Signed variant of `packSeqU`. -/
def packSeqS (w : Nat) : List Int → Except SerError (List Nat)
  | [] => .ok []
  | v :: vs => do
    let b ← packS w v
    let bs ← packSeqS w vs
    .ok (b ++ bs)

/-- `struct.pack` of `n` consecutive unsigned fields of width `w` (formats
such as `4B`, `2H`, `{count}I`); `struct.error` when the argument count
differs from `n`. -/
def packUs (n w : Nat) (vs : List Int) : Except SerError (List Nat) :=
  if vs.length = n then packSeqU w vs
  else .error .structError

/-- Signed variant of `packUs` (formats such as `4b`, `2h`, `2i`). -/
def packSs (n w : Nat) (vs : List Int) : Except SerError (List Nat) :=
  if vs.length = n then packSeqS w vs
  else .error .structError

/-- A classical record `struct.pack("<HHI...", id, code, count, payload)`. -/
def pack_HHI (id code count : Nat) (payload : Except SerError (List Nat)) :
    Except SerError (Option (List Nat)) := do
  let a ← packN 2 id
  let b ← packN 2 code
  let c ← packN 4 count
  let d ← payload
  .ok (some (a ++ b ++ c ++ d))

/-- A BigTIFF record `struct.pack("<HHQ...", id, code, count, payload)`. -/
def pack_HHQ (id code count : Nat) (payload : Except SerError (List Nat)) :
    Except SerError (Option (List Nat)) := do
  let a ← packN 2 id
  let b ← packN 2 code
  let c ← packN 8 count
  let d ← payload
  .ok (some (a ++ b ++ c ++ d))

/-- `TiffEntry.serialize` (lines 100-191). The `Option` result models the
Python return value: `some record` for an explicit `return`, `none` for the
implicit `return None` reached when the signed-bucket inner branches (which
compare against `BYTE`/`SHORT`/`LONG` instead of the signed codes) all fail
to match. -/
def TiffEntry.serialize (e : TiffEntry) (offset : Int) (classical : Bool) :
    Except SerError (Option (List Nat)) :=
  let off : Nat := offset.toNat
  let bytes := TIFF_BYTES e.type
  let size := e.count * bytes
  if classical then
    if e.type = .BYTE ∨ e.type = .SHORT ∨ e.type = .LONG then
      if size ≤ 4 then
        if e.type = .BYTE then
          pack_HHI e.id e.type.code e.count
            (packUs 4 1 ((e.value.toList ++ [0, 0, 0, 0]).take 4))
        else if e.type = .SHORT then
          pack_HHI e.id e.type.code e.count
            (packUs 2 2 ((e.value.toList ++ [0, 0]).take 2))
        else if e.type = .LONG then
          match e.value with
          | .scalar v => pack_HHI e.id e.type.code e.count (packU 4 v)
          | .list _ => .error .structError
        else
          .ok none
      else
        pack_HHI e.id e.type.code e.count (packN 4 off)
    else if e.type = .SBYTE ∨ e.type = .SSHORT ∨ e.type = .SLONG then
      if size ≤ 4 then
        if e.type = .BYTE then
          pack_HHI e.id e.type.code e.count
            (packSs 4 1 ((e.value.toList ++ List.replicate 4 0).take 4))
        else if e.type = .SHORT then
          pack_HHI e.id e.type.code e.count
            (packSs 2 2 ((e.value.toList ++ List.replicate 2 0).take 2))
        else if e.type = .LONG then
          match e.value with
          | .scalar v => pack_HHI e.id e.type.code e.count (packS 4 v)
          | .list _ => .error .structError
        else
          .ok none
      else
        pack_HHI e.id e.type.code e.count (packN 4 off)
    else
      .error .unsupported
  else
    if e.type = .BYTE ∨ e.type = .SHORT ∨ e.type = .LONG then
      if size ≤ 8 then
        if e.type = .BYTE then
          pack_HHQ e.id e.type.code e.count
            (packUs 8 1 ((e.value.toList ++ List.replicate 8 0).take 8))
        else if e.type = .SHORT then
          pack_HHQ e.id e.type.code e.count
            (packUs 4 2 ((e.value.toList ++ List.replicate 4 0).take 4))
        else if e.type = .LONG then
          pack_HHQ e.id e.type.code e.count
            (packUs 2 4 ((e.value.toList ++ List.replicate 2 0).take 2))
        else
          .ok none
      else
        pack_HHQ e.id e.type.code e.count (packN 8 off)
    else if e.type = .SBYTE ∨ e.type = .SSHORT ∨ e.type = .SLONG then
      if size ≤ 8 then
        if e.type = .BYTE then
          pack_HHQ e.id e.type.code e.count
            (packSs 8 1 ((e.value.toList ++ List.replicate 8 0).take 8))
        else if e.type = .SHORT then
          pack_HHQ e.id e.type.code e.count
            (packSs 4 2 ((e.value.toList ++ [0, 0]).take 2))
        else if e.type = .LONG then
          pack_HHQ e.id e.type.code e.count
            (packSs 2 4 ((e.value.toList ++ List.replicate 2 0).take 2))
        else
          .ok none
      else
        pack_HHQ e.id e.type.code e.count (packN 8 off)
    else
      .error .unsupported

/-- `TiffEntry.has_tail` (lines 193-196): fixed 4-byte threshold,
independent of the container variant. -/
def TiffEntry.has_tail (e : TiffEntry) : Bool :=
  decide (e.count * TIFF_BYTES e.type > 4)

/-- `TiffEntry.tail` (lines 198-221). -/
def TiffEntry.tail (e : TiffEntry) : Except SerError (List Nat) :=
  if ¬ e.has_tail then .ok []
  else if e.count > 1 then
    match e.type with
    | .BYTE =>
      match e.value with
      | .scalar _ => .error .typeError
      | .list vs => packUs e.count 1 vs
    | .ASCII => .error .attrError
    | .SHORT =>
      match e.value with
      | .scalar _ => .error .typeError
      | .list vs => packUs e.count 2 vs
    | .LONG =>
      match e.value with
      | .scalar _ => .error .typeError
      | .list vs => packUs e.count 4 vs
    | _ => .error .unsupported
  else
    if e.count = 0 then
      match e.type with
      | .RATIONAL =>
        match e.value with
        | .scalar _ => .error .typeError
        | .list vs => packUs 2 4 vs
      | .SRATIONAL =>
        match e.value with
        | .scalar _ => .error .typeError
        | .list vs => packSs 2 4 vs
      | .DOUBLE => .error .structError
      | _ => .error .unsupported
    else .error .assertError

/-! ### Container Builder (source: `TiffBuilder`) -/

/-- `TiffBuilder` state: the variant flag and the accumulated entries. -/
structure TiffBuilder where
  classical : Bool
  entries : List TiffEntry

/-- The per-entry loop of `build_header` (lines 242-245): serialize each
record at `offset + header_tail_bytes`, then add the length of the entry
tail to the running `header_tail_bytes`. -/
def serializeLoop (classical : Bool) (offset : Int) :
    Nat → List TiffEntry → Except SerError (List Nat × Nat)
  | tailAcc, [] => .ok ([], tailAcc)
  | tailAcc, e :: rest => do
    let r ← e.serialize (offset + (tailAcc : Int)) classical
    match r with
    | none => .error .typeError
    | some recBytes => do
      let t ← e.tail
      let (bs, acc) ← serializeLoop classical offset (tailAcc + t.length) rest
      .ok (recBytes ++ bs, acc)

/-- The tails of all entries in order (computed twice by `build_header`:
once via `len(entry.tail())` in the loop, once when appending). -/
def tailsOf : List TiffEntry → Except SerError (List (List Nat))
  | [] => .ok []
  | e :: rest => do
    let t ← e.tail
    let ts ← tailsOf rest
    .ok (t :: ts)

/-- The body of `build_header` (lines 234-253) for a given overflow base
offset, without the final self-resolving recursion: returns the full header
bytes and `header_pointer_offset` (the byte length of the fixed part:
magic, entry count, records, terminator). -/
def buildHeaderOnce (b : TiffBuilder) (offset : Int) :
    Except SerError (List Nat × Nat) := do
  let pfx ←
    if b.classical then do
      let c ← packN 2 b.entries.length
      pure ([0x49, 0x49, 0x2a, 0x00, 0x08, 0x00, 0x00, 0x00] ++ c)
    else do
      let c ← packN 8 b.entries.length
      pure ([0x49, 0x49, 0x2b, 0x00, 0x08, 0x00, 0x00, 0x00]
        ++ leBytes 8 0x10 ++ c)
  let res ← serializeLoop b.classical offset 0 b.entries
  let fixed := pfx ++ res.1 ++ List.replicate (if b.classical then 4 else 8) 0
  let tails ← tailsOf b.entries
  .ok (fixed ++ tails.flatten, fixed.length)

/-- `build_header` (lines 234-256): when `offset < 0` (the default `-1`),
the whole header is built once to learn `header_pointer_offset`, then
rebuilt with that value as the overflow-area base offset. -/
def TiffBuilder.build_header (b : TiffBuilder) (offset : Int) :
    Except SerError (List Nat) := do
  let hp ← buildHeaderOnce b offset
  if offset < 0 then do
    let hp2 ← buildHeaderOnce b (hp.2 : Int)
    pure hp2.1
  else
    pure hp.1

/-- Derived layout constant: the byte size of one fixed entry record
(12 classical, 20 BigTIFF). -/
def recSize (classical : Bool) : Nat := if classical then 12 else 20

/-- Derived layout constant: bytes before the first entry record (8-byte
magic plus the 2-byte or 8-byte entry count; BigTIFF also has the 8-byte
pointer written before the count). -/
def prefixLen (classical : Bool) : Nat := if classical then 10 else 24

/-- Derived layout constant: byte size of the next-IFD terminator. -/
def termLen (classical : Bool) : Nat := if classical then 4 else 8

/-- Derived layout constant: offset of the value/offset slot inside one
record (after tag, type and count fields). -/
def slotOff (classical : Bool) : Nat := if classical then 8 else 12

/-- Derived layout constant: width of the value/offset slot. -/
def slotW (classical : Bool) : Nat := if classical then 4 else 8

/-- Derived layout constant: total byte length of the fixed part of a
header with `n` entries (prefix, records, terminator) — the point at which
the overflow area begins. -/
def fixedLen (classical : Bool) (n : Nat) : Nat :=
  prefixLen classical + n * recSize classical + termLen classical

/-- The leading bytes of a header with `n` entries (magic, version, first
IFD pointer, entry count), as produced by lines 235-241. -/
def magicBytes (classical : Bool) (n : Nat) : List Nat :=
  if classical then
    [0x49, 0x49, 0x2a, 0x00, 0x08, 0x00, 0x00, 0x00] ++ leBytes 2 n
  else
    [0x49, 0x49, 0x2b, 0x00, 0x08, 0x00, 0x00, 0x00] ++ leBytes 8 0x10 ++ leBytes 8 n

/-! ### Pyramid Assembler (source: `main`) -/

/-- The entry sequence `main` builds (lines 321-337). The tile offset and
byte-count arrays are parameters because `main` mutates them in place
between the two header builds. -/
def mainEntries (classical : Bool)
    (image_width image_height tile_width tile_height total_tile : Nat)
    (offVals cntVals : List Int) : List TiffEntry :=
  (if classical then
    [⟨0x100, .SHORT, 1, .scalar (image_width : Int)⟩,
     ⟨0x101, .SHORT, 1, .scalar (image_height : Int)⟩]
  else
    [⟨0x100, .LONG, 1, .scalar (image_width : Int)⟩,
     ⟨0x101, .LONG, 1, .scalar (image_height : Int)⟩])
  ++ [⟨0x102, .SHORT, 3, .list [8, 8, 8]⟩,
      ⟨0x103, .SHORT, 1, .scalar 7⟩,
      ⟨0x106, .SHORT, 1, .scalar 6⟩,
      ⟨0x115, .SHORT, 1, .scalar 3⟩,
      ⟨0x11c, .SHORT, 1, .scalar 1⟩,
      ⟨0x142, .SHORT, 1, .scalar (tile_width : Int)⟩,
      ⟨0x143, .SHORT, 1, .scalar (tile_height : Int)⟩,
      ⟨0x144, .LONG, total_tile, .list offVals⟩,
      ⟨0x145, .LONG, total_tile, .list cntVals⟩,
      ⟨0x153, .SHORT, 1, .scalar 1⟩]

/-- The offset-computation loop of `main` (lines 344-358), with the
external `os.stat` byte sizes abstracted as the list `sizes`: starting
from `data_head = len(header)`, record each tile offset, record its byte
count, and advance `data_head`. Returns the offsets array, the counts
array, and the final `data_head`. -/
def offsetPass : Nat → List Nat → List Nat × List Nat × Nat
  | data_head, [] => ([], [], data_head)
  | data_head, s :: rest =>
    let r := offsetPass (data_head + s) rest
    (data_head :: r.1, s :: r.2.1, r.2.2)

/-! ### Bit-level characterization lemmas -/

theorem mask32_testBit (p : Nat) :
    Nat.testBit 0x00000000ffffffff p = (decide (p < 64) && decide (p % 64 < 32)) := by
  by_cases h : p < 64
  · have hball : ∀ q, q < 64 →
        Nat.testBit 0x00000000ffffffff q = decide (q % 64 < 32) := by decide
    simp [hball p h, h]
  · have : (0x00000000ffffffff : Nat) < 2 ^ p := by
      calc (0x00000000ffffffff : Nat) < 2 ^ 64 := by norm_num
      _ ≤ 2 ^ p := Nat.pow_le_pow_right (by norm_num) (by omega)
    simp [Nat.testBit_lt_two_pow this, h]

theorem mask16_testBit (p : Nat) :
    Nat.testBit 0x0000ffff0000ffff p = (decide (p < 64) && decide (p % 32 < 16)) := by
  by_cases h : p < 64
  · have hball : ∀ q, q < 64 →
        Nat.testBit 0x0000ffff0000ffff q = decide (q % 32 < 16) := by decide
    simp [hball p h, h]
  · have : (0x0000ffff0000ffff : Nat) < 2 ^ p := by
      calc (0x0000ffff0000ffff : Nat) < 2 ^ 64 := by norm_num
      _ ≤ 2 ^ p := Nat.pow_le_pow_right (by norm_num) (by omega)
    simp [Nat.testBit_lt_two_pow this, h]

theorem mask8_testBit (p : Nat) :
    Nat.testBit 0x00ff00ff00ff00ff p = (decide (p < 64) && decide (p % 16 < 8)) := by
  by_cases h : p < 64
  · have hball : ∀ q, q < 64 →
        Nat.testBit 0x00ff00ff00ff00ff q = decide (q % 16 < 8) := by decide
    simp [hball p h, h]
  · have : (0x00ff00ff00ff00ff : Nat) < 2 ^ p := by
      calc (0x00ff00ff00ff00ff : Nat) < 2 ^ 64 := by norm_num
      _ ≤ 2 ^ p := Nat.pow_le_pow_right (by norm_num) (by omega)
    simp [Nat.testBit_lt_two_pow this, h]

theorem mask4_testBit (p : Nat) :
    Nat.testBit 0x0f0f0f0f0f0f0f0f p = (decide (p < 64) && decide (p % 8 < 4)) := by
  by_cases h : p < 64
  · have hball : ∀ q, q < 64 →
        Nat.testBit 0x0f0f0f0f0f0f0f0f q = decide (q % 8 < 4) := by decide
    simp [hball p h, h]
  · have : (0x0f0f0f0f0f0f0f0f : Nat) < 2 ^ p := by
      calc (0x0f0f0f0f0f0f0f0f : Nat) < 2 ^ 64 := by norm_num
      _ ≤ 2 ^ p := Nat.pow_le_pow_right (by norm_num) (by omega)
    simp [Nat.testBit_lt_two_pow this, h]

theorem mask2_testBit (p : Nat) :
    Nat.testBit 0x3333333333333333 p = (decide (p < 64) && decide (p % 4 < 2)) := by
  by_cases h : p < 64
  · have hball : ∀ q, q < 64 →
        Nat.testBit 0x3333333333333333 q = decide (q % 4 < 2) := by decide
    simp [hball p h, h]
  · have : (0x3333333333333333 : Nat) < 2 ^ p := by
      calc (0x3333333333333333 : Nat) < 2 ^ 64 := by norm_num
      _ ≤ 2 ^ p := Nat.pow_le_pow_right (by norm_num) (by omega)
    simp [Nat.testBit_lt_two_pow this, h]

theorem mask1_testBit (p : Nat) :
    Nat.testBit 0x5555555555555555 p = (decide (p < 64) && decide (p % 2 < 1)) := by
  by_cases h : p < 64
  · have hball : ∀ q, q < 64 →
        Nat.testBit 0x5555555555555555 q = decide (q % 2 < 1) := by decide
    simp [hball p h, h]
  · have : (0x5555555555555555 : Nat) < 2 ^ p := by
      calc (0x5555555555555555 : Nat) < 2 ^ 64 := by norm_num
      _ ≤ 2 ^ p := Nat.pow_le_pow_right (by norm_num) (by omega)
    simp [Nat.testBit_lt_two_pow this, h]

theorem maskLow32_testBit (p : Nat) :
    Nat.testBit 0xffffffff p = decide (p < 32) := by
  have h : (0xffffffff : Nat) = 2 ^ 32 - 1 := by norm_num
  rw [h, Nat.testBit_two_pow_sub_one]

theorem testBit_ge_32 {u j : Nat} (hu : u < 2 ^ 32) (h : 32 ≤ j) : u.testBit j = false :=
  Nat.testBit_lt_two_pow (lt_of_lt_of_le hu (Nat.pow_le_pow_right (by norm_num) h))

theorem spread_stage_init (u : Nat) (hu : u < 2 ^ 32) (q : Nat) :
    u.testBit q = (decide (q % 64 < 32) && u.testBit (q / 64 * 32 + q % 64)) := by
  by_cases h : q < 32
  · have h1 : q % 64 < 32 := by omega
    have h2 : q / 64 * 32 + q % 64 = q := by omega
    simp [h1, h2]
  · have hq : u.testBit q = false := testBit_ge_32 hu (by omega)
    by_cases h2 : q % 64 < 32
    · have h64 : 64 ≤ q := by omega
      have h3 : 32 ≤ q / 64 * 32 + q % 64 := by omega
      simp [hq, testBit_ge_32 hu h3]
    · simp [hq, h2]

theorem spread_step16 (u s : Nat) (hu : u < 2 ^ 32)
    (hs : ∀ q, s.testBit q = (decide (q % 64 < 32) && u.testBit (q / 64 * 32 + q % 64)))
    (p : Nat) :
    ((s ^^^ (s <<< 16)) &&& 0x0000ffff0000ffff).testBit p
      = (decide (p % 32 < 16) && u.testBit (p / 32 * 16 + p % 32)) := by
  rw [Nat.testBit_and, Nat.testBit_xor, Nat.testBit_shiftLeft, mask16_testBit, hs p, hs (p - 16)]
  by_cases hm : p % 32 < 16
  · by_cases h64 : p < 64
    · by_cases hlo : p % 64 < 16
      · by_cases hg : 16 ≤ p
        · have e1 : p % 64 < 32 := by omega
          have e1i : p / 64 * 32 + p % 64 = p / 32 * 16 + p % 32 := by omega
          have e2 : ¬ ((p - 16) % 64 < 32) := by omega
          simp [e1, e1i, e2, hg, hm, h64]
        · have e1 : p % 64 < 32 := by omega
          have e1i : p / 64 * 32 + p % 64 = p / 32 * 16 + p % 32 := by omega
          simp [e1, e1i, hg, hm, h64]
      · have hB : 32 ≤ p % 64 ∧ p % 64 < 48 := by omega
        have e1 : ¬ (p % 64 < 32) := by omega
        have hg : 16 ≤ p := by omega
        have e2 : (p - 16) % 64 < 32 := by omega
        have e2i : (p - 16) / 64 * 32 + (p - 16) % 64 = p / 32 * 16 + p % 32 := by omega
        simp [e1, e2, e2i, hg, hm, h64]
    · have h3 : 32 ≤ p / 32 * 16 + p % 32 := by omega
      simp [h64, testBit_ge_32 hu h3]
  · simp [hm]

theorem spread_step8 (u s : Nat) (hu : u < 2 ^ 32)
    (hs : ∀ q, s.testBit q = (decide (q % 32 < 16) && u.testBit (q / 32 * 16 + q % 32)))
    (p : Nat) :
    ((s ^^^ (s <<< 8)) &&& 0x00ff00ff00ff00ff).testBit p
      = (decide (p % 16 < 8) && u.testBit (p / 16 * 8 + p % 16)) := by
  rw [Nat.testBit_and, Nat.testBit_xor, Nat.testBit_shiftLeft, mask8_testBit, hs p, hs (p - 8)]
  by_cases hm : p % 16 < 8
  · by_cases h64 : p < 64
    · by_cases hlo : p % 32 < 8
      · by_cases hg : 8 ≤ p
        · have e1 : p % 32 < 16 := by omega
          have e1i : p / 32 * 16 + p % 32 = p / 16 * 8 + p % 16 := by omega
          have e2 : ¬ ((p - 8) % 32 < 16) := by omega
          simp [e1, e1i, e2, hg, hm, h64]
        · have e1 : p % 32 < 16 := by omega
          have e1i : p / 32 * 16 + p % 32 = p / 16 * 8 + p % 16 := by omega
          simp [e1, e1i, hg, hm, h64]
      · have e1 : ¬ (p % 32 < 16) := by omega
        have hg : 8 ≤ p := by omega
        have e2 : (p - 8) % 32 < 16 := by omega
        have e2i : (p - 8) / 32 * 16 + (p - 8) % 32 = p / 16 * 8 + p % 16 := by omega
        simp [e1, e2, e2i, hg, hm, h64]
    · have h3 : 32 ≤ p / 16 * 8 + p % 16 := by omega
      simp [h64, testBit_ge_32 hu h3]
  · simp [hm]

theorem spread_step4 (u s : Nat) (hu : u < 2 ^ 32)
    (hs : ∀ q, s.testBit q = (decide (q % 16 < 8) && u.testBit (q / 16 * 8 + q % 16)))
    (p : Nat) :
    ((s ^^^ (s <<< 4)) &&& 0x0f0f0f0f0f0f0f0f).testBit p
      = (decide (p % 8 < 4) && u.testBit (p / 8 * 4 + p % 8)) := by
  rw [Nat.testBit_and, Nat.testBit_xor, Nat.testBit_shiftLeft, mask4_testBit, hs p, hs (p - 4)]
  by_cases hm : p % 8 < 4
  · by_cases h64 : p < 64
    · by_cases hlo : p % 16 < 4
      · by_cases hg : 4 ≤ p
        · have e1 : p % 16 < 8 := by omega
          have e1i : p / 16 * 8 + p % 16 = p / 8 * 4 + p % 8 := by omega
          have e2 : ¬ ((p - 4) % 16 < 8) := by omega
          simp [e1, e1i, e2, hg, hm, h64]
        · have e1 : p % 16 < 8 := by omega
          have e1i : p / 16 * 8 + p % 16 = p / 8 * 4 + p % 8 := by omega
          simp [e1, e1i, hg, hm, h64]
      · have e1 : ¬ (p % 16 < 8) := by omega
        have hg : 4 ≤ p := by omega
        have e2 : (p - 4) % 16 < 8 := by omega
        have e2i : (p - 4) / 16 * 8 + (p - 4) % 16 = p / 8 * 4 + p % 8 := by omega
        simp [e1, e2, e2i, hg, hm, h64]
    · have h3 : 32 ≤ p / 8 * 4 + p % 8 := by omega
      simp [h64, testBit_ge_32 hu h3]
  · simp [hm]

theorem spread_step2 (u s : Nat) (hu : u < 2 ^ 32)
    (hs : ∀ q, s.testBit q = (decide (q % 8 < 4) && u.testBit (q / 8 * 4 + q % 8)))
    (p : Nat) :
    ((s ^^^ (s <<< 2)) &&& 0x3333333333333333).testBit p
      = (decide (p % 4 < 2) && u.testBit (p / 4 * 2 + p % 4)) := by
  rw [Nat.testBit_and, Nat.testBit_xor, Nat.testBit_shiftLeft, mask2_testBit, hs p, hs (p - 2)]
  by_cases hm : p % 4 < 2
  · by_cases h64 : p < 64
    · by_cases hlo : p % 8 < 2
      · by_cases hg : 2 ≤ p
        · have e1 : p % 8 < 4 := by omega
          have e1i : p / 8 * 4 + p % 8 = p / 4 * 2 + p % 4 := by omega
          have e2 : ¬ ((p - 2) % 8 < 4) := by omega
          simp [e1, e1i, e2, hg, hm, h64]
        · have e1 : p % 8 < 4 := by omega
          have e1i : p / 8 * 4 + p % 8 = p / 4 * 2 + p % 4 := by omega
          simp [e1, e1i, hg, hm, h64]
      · have e1 : ¬ (p % 8 < 4) := by omega
        have hg : 2 ≤ p := by omega
        have e2 : (p - 2) % 8 < 4 := by omega
        have e2i : (p - 2) / 8 * 4 + (p - 2) % 8 = p / 4 * 2 + p % 4 := by omega
        simp [e1, e2, e2i, hg, hm, h64]
    · have h3 : 32 ≤ p / 4 * 2 + p % 4 := by omega
      simp [h64, testBit_ge_32 hu h3]
  · simp [hm]

theorem spread_step1 (u s : Nat) (hu : u < 2 ^ 32)
    (hs : ∀ q, s.testBit q = (decide (q % 4 < 2) && u.testBit (q / 4 * 2 + q % 4)))
    (p : Nat) :
    ((s ^^^ (s <<< 1)) &&& 0x5555555555555555).testBit p
      = (decide (p % 2 < 1) && u.testBit (p / 2 * 1 + p % 2)) := by
  rw [Nat.testBit_and, Nat.testBit_xor, Nat.testBit_shiftLeft, mask1_testBit, hs p, hs (p - 1)]
  by_cases hm : p % 2 < 1
  · by_cases h64 : p < 64
    · by_cases hlo : p % 4 < 1
      · by_cases hg : 1 ≤ p
        · have e1 : p % 4 < 2 := by omega
          have e1i : p / 4 * 2 + p % 4 = p / 2 * 1 + p % 2 := by omega
          have e2 : ¬ ((p - 1) % 4 < 2) := by omega
          simp [e1, e1i, e2, hg, hm, h64]
        · have e1 : p % 4 < 2 := by omega
          have e1i : p / 4 * 2 + p % 4 = p / 2 * 1 + p % 2 := by omega
          simp [e1, e1i, hg, hm, h64]
      · have e1 : ¬ (p % 4 < 2) := by omega
        have hg : 1 ≤ p := by omega
        have e2 : (p - 1) % 4 < 2 := by omega
        have e2i : (p - 1) / 4 * 2 + (p - 1) % 4 = p / 2 * 1 + p % 2 := by omega
        simp [e1, e2, e2i, hg, hm, h64]
    · have h3 : u.testBit (p / 2 * 1 + p % 2) = false := testBit_ge_32 hu (by omega)
      have h3b : u.testBit (p / 2 + p % 2) = false := testBit_ge_32 hu (by omega)
      simp [h64, h3, h3b]
  · simp [hm]

theorem spread_testBit (v i : Nat) :
    (spread_bits v).testBit i
      = (decide (i % 2 = 0) && (decide (i < 64) && v.testBit (i / 2))) := by
  have hu : v &&& 0xffffffff < 2 ^ 32 := Nat.and_lt_two_pow v (by norm_num)
  have H32 := spread_stage_init (v &&& 0xffffffff) hu
  have H16 := spread_step16 (v &&& 0xffffffff) (v &&& 0xffffffff) hu H32
  have H8 := spread_step8 (v &&& 0xffffffff) _ hu H16
  have H4 := spread_step4 (v &&& 0xffffffff) _ hu H8
  have H2 := spread_step2 (v &&& 0xffffffff) _ hu H4
  have H1 := spread_step1 (v &&& 0xffffffff) _ hu H2
  have e : (spread_bits v).testBit i
      = (decide (i % 2 < 1) && (v &&& 0xffffffff).testBit (i / 2 * 1 + i % 2)) := H1 i
  rw [e]
  by_cases hpar : i % 2 = 0
  · have e1 : i / 2 * 1 + i % 2 = i / 2 := by omega
    rw [e1, Nat.testBit_and, maskLow32_testBit]
    by_cases h64 : i < 64
    · have : i / 2 < 32 := by omega
      simp [hpar, h64, this, Nat.lt_irrefl]
    · have : ¬ (i / 2 < 32) := by omega
      simp [hpar, h64, this]
  · have : ¬ (i % 2 < 1) := by omega
    simp [hpar, this]

theorem compress_stage_init (w q : Nat) :
    (w &&& 0x5555555555555555).testBit q
      = (decide (q % 2 < 1) && (decide (q / 2 < 32) && w.testBit (2 * (q / 2)))) := by
  rw [Nat.testBit_and, mask1_testBit]
  by_cases hm : q % 2 < 1
  · by_cases h64 : q < 64
    · have e1 : 2 * (q / 2) = q := by omega
      have e2 : q / 2 < 32 := by omega
      simp [e1, e2, hm, h64, Bool.and_comm]
    · have e2 : ¬ (q / 2 < 32) := by omega
      simp [h64, e2]
  · simp [hm]

theorem compress_step1 (w s : Nat)
    (hs : ∀ q, s.testBit q
      = (decide (q % 2 < 1) && (decide (q / 2 < 32) && w.testBit (2 * (q / 2)))))
    (q : Nat) :
    ((s ^^^ (s >>> 1)) &&& 0x3333333333333333).testBit q
      = (decide (q % 4 < 2) &&
          (decide (q / 4 * 2 + q % 4 < 32) && w.testBit (2 * (q / 4 * 2 + q % 4)))) := by
  rw [Nat.testBit_and, Nat.testBit_xor, Nat.testBit_shiftRight, mask2_testBit, hs q, hs (1 + q)]
  by_cases hm : q % 4 < 2
  · by_cases h64 : q < 64
    · by_cases hA : q % 4 < 1
      · have e1 : q % 2 < 1 := by omega
        have e1i : q / 2 = q / 4 * 2 + q % 4 := by omega
        have e2 : ¬ ((1 + q) % 2 < 1) := by omega
        simp [e1, e1i, e2, hm, h64]
      · have e1 : ¬ (q % 2 < 1) := by omega
        have e2 : (1 + q) % 2 < 1 := by omega
        have e2i : (1 + q) / 2 = q / 4 * 2 + q % 4 := by omega
        simp [e1, e2, e2i, hm, h64]
    · have h3 : ¬ (q / 4 * 2 + q % 4 < 32) := by omega
      simp [h64, h3]
  · simp [hm]

theorem compress_step2 (w s : Nat)
    (hs : ∀ q, s.testBit q
      = (decide (q % 4 < 2) &&
          (decide (q / 4 * 2 + q % 4 < 32) && w.testBit (2 * (q / 4 * 2 + q % 4)))))
    (q : Nat) :
    ((s ^^^ (s >>> 2)) &&& 0x0f0f0f0f0f0f0f0f).testBit q
      = (decide (q % 8 < 4) &&
          (decide (q / 8 * 4 + q % 8 < 32) && w.testBit (2 * (q / 8 * 4 + q % 8)))) := by
  rw [Nat.testBit_and, Nat.testBit_xor, Nat.testBit_shiftRight, mask4_testBit, hs q, hs (2 + q)]
  by_cases hm : q % 8 < 4
  · by_cases h64 : q < 64
    · by_cases hA : q % 8 < 2
      · have e1 : q % 4 < 2 := by omega
        have e1i : q / 4 * 2 + q % 4 = q / 8 * 4 + q % 8 := by omega
        have e2 : ¬ ((2 + q) % 4 < 2) := by omega
        simp [e1, e1i, e2, hm, h64]
      · have e1 : ¬ (q % 4 < 2) := by omega
        have e2 : (2 + q) % 4 < 2 := by omega
        have e2i : (2 + q) / 4 * 2 + (2 + q) % 4 = q / 8 * 4 + q % 8 := by omega
        simp [e1, e2, e2i, hm, h64]
    · have h3 : ¬ (q / 8 * 4 + q % 8 < 32) := by omega
      simp [h64, h3]
  · simp [hm]

theorem compress_step4 (w s : Nat)
    (hs : ∀ q, s.testBit q
      = (decide (q % 8 < 4) &&
          (decide (q / 8 * 4 + q % 8 < 32) && w.testBit (2 * (q / 8 * 4 + q % 8)))))
    (q : Nat) :
    ((s ^^^ (s >>> 4)) &&& 0x00ff00ff00ff00ff).testBit q
      = (decide (q % 16 < 8) &&
          (decide (q / 16 * 8 + q % 16 < 32) && w.testBit (2 * (q / 16 * 8 + q % 16)))) := by
  rw [Nat.testBit_and, Nat.testBit_xor, Nat.testBit_shiftRight, mask8_testBit, hs q, hs (4 + q)]
  by_cases hm : q % 16 < 8
  · by_cases h64 : q < 64
    · by_cases hA : q % 16 < 4
      · have e1 : q % 8 < 4 := by omega
        have e1i : q / 8 * 4 + q % 8 = q / 16 * 8 + q % 16 := by omega
        have e2 : ¬ ((4 + q) % 8 < 4) := by omega
        simp [e1, e1i, e2, hm, h64]
      · have e1 : ¬ (q % 8 < 4) := by omega
        have e2 : (4 + q) % 8 < 4 := by omega
        have e2i : (4 + q) / 8 * 4 + (4 + q) % 8 = q / 16 * 8 + q % 16 := by omega
        simp [e1, e2, e2i, hm, h64]
    · have h3 : ¬ (q / 16 * 8 + q % 16 < 32) := by omega
      simp [h64, h3]
  · simp [hm]

theorem compress_step8 (w s : Nat)
    (hs : ∀ q, s.testBit q
      = (decide (q % 16 < 8) &&
          (decide (q / 16 * 8 + q % 16 < 32) && w.testBit (2 * (q / 16 * 8 + q % 16)))))
    (q : Nat) :
    ((s ^^^ (s >>> 8)) &&& 0x0000ffff0000ffff).testBit q
      = (decide (q % 32 < 16) &&
          (decide (q / 32 * 16 + q % 32 < 32) && w.testBit (2 * (q / 32 * 16 + q % 32)))) := by
  rw [Nat.testBit_and, Nat.testBit_xor, Nat.testBit_shiftRight, mask16_testBit, hs q, hs (8 + q)]
  by_cases hm : q % 32 < 16
  · by_cases h64 : q < 64
    · by_cases hA : q % 32 < 8
      · have e1 : q % 16 < 8 := by omega
        have e1i : q / 16 * 8 + q % 16 = q / 32 * 16 + q % 32 := by omega
        have e2 : ¬ ((8 + q) % 16 < 8) := by omega
        simp [e1, e1i, e2, hm, h64]
      · have e1 : ¬ (q % 16 < 8) := by omega
        have e2 : (8 + q) % 16 < 8 := by omega
        have e2i : (8 + q) / 16 * 8 + (8 + q) % 16 = q / 32 * 16 + q % 32 := by omega
        simp [e1, e2, e2i, hm, h64]
    · have h3 : ¬ (q / 32 * 16 + q % 32 < 32) := by omega
      simp [h64, h3]
  · simp [hm]

theorem compress_step16 (w s : Nat)
    (hs : ∀ q, s.testBit q
      = (decide (q % 32 < 16) &&
          (decide (q / 32 * 16 + q % 32 < 32) && w.testBit (2 * (q / 32 * 16 + q % 32)))))
    (q : Nat) :
    ((s ^^^ (s >>> 16)) &&& 0x00000000ffffffff).testBit q
      = (decide (q % 64 < 32) &&
          (decide (q / 64 * 32 + q % 64 < 32) && w.testBit (2 * (q / 64 * 32 + q % 64)))) := by
  rw [Nat.testBit_and, Nat.testBit_xor, Nat.testBit_shiftRight, mask32_testBit, hs q, hs (16 + q)]
  by_cases hm : q % 64 < 32
  · by_cases h64 : q < 64
    · by_cases hA : q % 64 < 16
      · have e1 : q % 32 < 16 := by omega
        have e1i : q / 32 * 16 + q % 32 = q / 64 * 32 + q % 64 := by omega
        have e2 : ¬ ((16 + q) % 32 < 16) := by omega
        simp [e1, e1i, e2, hm, h64]
      · have e1 : ¬ (q % 32 < 16) := by omega
        have e2 : (16 + q) % 32 < 16 := by omega
        have e2i : (16 + q) / 32 * 16 + (16 + q) % 32 = q / 64 * 32 + q % 64 := by omega
        simp [e1, e2, e2i, hm, h64]
    · have h3 : ¬ (q / 64 * 32 + q % 64 < 32) := by omega
      simp [h64, h3]
  · simp [hm]

theorem compress_testBit (w q : Nat) :
    (compress_bits w).testBit q = (decide (q < 32) && w.testBit (2 * q)) := by
  have H1 := compress_stage_init w
  have H2 := compress_step1 w _ H1
  have H4 := compress_step2 w _ H2
  have H8 := compress_step4 w _ H4
  have H16 := compress_step8 w _ H8
  have H32 := compress_step16 w _ H16
  have e : (compress_bits w).testBit q
      = (decide (q % 64 < 32) &&
          (decide (q / 64 * 32 + q % 64 < 32) && w.testBit (2 * (q / 64 * 32 + q % 64)))) :=
    H32 q
  rw [e]
  by_cases h32 : q < 32
  · have e1 : q % 64 < 32 := by omega
    have e2 : q / 64 * 32 + q % 64 = q := by omega
    simp [e1, e2, h32]
  · by_cases hm : q % 64 < 32
    · have h3 : ¬ (q / 64 * 32 + q % 64 < 32) := by omega
      simp [h3, h32]
    · simp [hm, h32]

theorem testBit_ge_64 {u j : Nat} (hu : u < 2 ^ 64) (h : 64 ≤ j) : u.testBit j = false :=
  Nat.testBit_lt_two_pow (lt_of_lt_of_le hu (Nat.pow_le_pow_right (by norm_num) h))

theorem interleave_testBit (x y i : Nat) :
    (interleave x y).testBit i
      = (decide (i < 64) &&
          (if i % 2 = 0 then x.testBit (i / 2) else y.testBit (i / 2))) := by
  unfold interleave
  rw [Nat.testBit_or, Nat.testBit_shiftLeft, spread_testBit, spread_testBit]
  by_cases hpar : i % 2 = 0
  · by_cases hz : 1 ≤ i
    · have e : ¬ ((i - 1) % 2 = 0) := by omega
      simp [hpar, e, hz]
    · have e0 : i = 0 := by omega
      simp [e0]
  · have e : (i - 1) % 2 = 0 := by omega
    have hz : 1 ≤ i := by omega
    have e2 : (i - 1) / 2 = i / 2 := by omega
    have e3 : (i - 1 < 64) ↔ (i < 64) := by omega
    simp [hpar, e, hz, e2, e3]

theorem deinterleave_fst (x y : Nat) (hx : x < 2 ^ 32) :
    compress_bits (interleave x y) = x := by
  apply Nat.eq_of_testBit_eq
  intro q
  rw [compress_testBit, interleave_testBit]
  have epar : 2 * q % 2 = 0 := by omega
  have ediv : 2 * q / 2 = q := by omega
  by_cases h32 : q < 32
  · have h64 : 2 * q < 64 := by omega
    simp [epar, ediv, h32, h64]
  · simp [h32, testBit_ge_32 hx (by omega : 32 ≤ q)]

theorem deinterleave_snd (x y : Nat) (hy : y < 2 ^ 32) :
    compress_bits (interleave x y >>> 1) = y := by
  apply Nat.eq_of_testBit_eq
  intro q
  rw [compress_testBit, Nat.testBit_shiftRight, interleave_testBit]
  have epar : ¬ ((1 + 2 * q) % 2 = 0) := by omega
  have ediv : (1 + 2 * q) / 2 = q := by omega
  by_cases h32 : q < 32
  · have h64 : 1 + 2 * q < 64 := by omega
    simp [epar, ediv, h32, h64]
  · simp [h32, testBit_ge_32 hy (by omega : 32 ≤ q)]

theorem interleave_deinterleave (r : Nat) (hr : r < 2 ^ 64) :
    interleave (compress_bits r) (compress_bits (r >>> 1)) = r := by
  apply Nat.eq_of_testBit_eq
  intro i
  rw [interleave_testBit]
  by_cases hpar : i % 2 = 0
  · rw [if_pos hpar, compress_testBit]
    have e : 2 * (i / 2) = i := by omega
    rw [e]
    by_cases h64 : i < 64
    · have : i / 2 < 32 := by omega
      simp [h64, this]
    · have : ¬ (i / 2 < 32) := by omega
      simp [h64, this, testBit_ge_64 hr (by omega : 64 ≤ i)]
  · rw [if_neg hpar, compress_testBit, Nat.testBit_shiftRight]
    have e : 1 + 2 * (i / 2) = i := by omega
    rw [e]
    by_cases h64 : i < 64
    · have : i / 2 < 32 := by omega
      simp [h64, this]
    · have : ¬ (i / 2 < 32) := by omega
      simp [h64, this, testBit_ge_64 hr (by omega : 64 ≤ i)]

/-- C2: for all unsigned 32-bit integers `x` and `y`, deinterleaving the
interleaved index recovers the pair exactly:
`deinterleave(interleave(x, y)) == (x, y)`, where
`interleave(x, y) = (spread_bits(y) << 1) | spread_bits(x)` and
`deinterleave(i) = (compress_bits(i), compress_bits(i >> 1))`. -/
theorem c2_bit_roundtrip (x y : Nat) (hx : x < 2 ^ 32) (hy : y < 2 ^ 32) :
    deinterleave (interleave x y) = (x, y) := by
  unfold deinterleave
  rw [deinterleave_fst x y hx, deinterleave_snd x y hy]

/-- Witness for C2 at a concrete 32-bit pair. -/
theorem c2_bit_roundtrip_witness :
    deinterleave (interleave 0xDEADBEEF 0x12345678) = (0xDEADBEEF, 0x12345678) :=
  c2_bit_roundtrip 0xDEADBEEF 0x12345678 (by norm_num) (by norm_num)

/-! ### Tile Locator bijection -/

theorem testBit_ge_pow {a z j : Nat} (ha : a < 2 ^ z) (h : z ≤ j) : a.testBit j = false :=
  Nat.testBit_lt_two_pow (lt_of_lt_of_le ha (Nat.pow_le_pow_right (by norm_num) h))

theorem interleave_lt_pow {z x y : Nat} (hx : x < 2 ^ z) (hy : y < 2 ^ z) :
    interleave x y < 2 ^ z * 2 ^ z := by
  rw [← pow_add]
  apply Nat.lt_pow_two_of_testBit
  intro i hi
  rw [interleave_testBit]
  by_cases hpar : i % 2 = 0
  · rw [if_pos hpar, testBit_ge_pow hx (by omega : z ≤ i / 2)]
    simp
  · rw [if_neg hpar, testBit_ge_pow hy (by omega : z ≤ i / 2)]
    simp

theorem compress_lt_pow {z r : Nat} (hr : r < 2 ^ z * 2 ^ z) :
    compress_bits r < 2 ^ z := by
  rw [← pow_add] at hr
  apply Nat.lt_pow_two_of_testBit
  intro i hi
  rw [compress_testBit, testBit_ge_pow hr (by omega : z + z ≤ 2 * i)]
  simp

theorem compress_shift_lt_pow {z r : Nat} (hr : r < 2 ^ z * 2 ^ z) :
    compress_bits (r >>> 1) < 2 ^ z := by
  rw [← pow_add] at hr
  apply Nat.lt_pow_two_of_testBit
  intro i hi
  rw [compress_testBit, Nat.testBit_shiftRight,
    testBit_ge_pow hr (by omega : z + z ≤ 1 + 2 * i)]
  simp

theorem tileIndex_eq (z i : Nat) :
    tileIndex z i
      = (i / (2 ^ z * 4) / 2 ^ z * 4 + i % (2 ^ z * 4) / 2 ^ z) * (2 ^ z * 2 ^ z)
        + interleave (i / (2 ^ z * 4) % 2 ^ z) (i % (2 ^ z * 4) % 2 ^ z) := by
  simp [tileIndex, interleave, Nat.one_shiftLeft]

theorem tileIndexInv_eq (z t : Nat) :
    tileIndexInv z t
      = (t / (2 ^ z * 2 ^ z) / 4 * 2 ^ z + compress_bits (t % (2 ^ z * 2 ^ z)))
          * (2 ^ z * 4)
        + (t / (2 ^ z * 2 ^ z) % 4 * 2 ^ z + compress_bits ((t % (2 ^ z * 2 ^ z)) >>> 1)) := by
  simp [tileIndexInv, Nat.one_shiftLeft]

theorem four_pow_eq (z : Nat) : (4 : Nat) ^ z = 2 ^ z * 2 ^ z := by
  rw [show (4 : Nat) = 2 * 2 by norm_num, mul_pow]

theorem div_mul_add_lt {m a b c : Nat} (ha : a < c) (hb : b < m) :
    a * m + b < c * m := by
  calc a * m + b < a * m + m := by omega
  _ = (a + 1) * m := by ring
  _ ≤ c * m := Nat.mul_le_mul_right m ha

theorem tileIndex_lt (z : Nat) (i : Nat) (hi : i < 12 * 4 ^ z) :
    tileIndex z i < 12 * 4 ^ z := by
  rw [tileIndex_eq, four_pow_eq] at *
  have hn : 0 < 2 ^ z := Nat.pos_pow_of_pos z (by norm_num)
  have hrow : i / (2 ^ z * 4) < 3 * 2 ^ z := by
    rw [Nat.div_lt_iff_lt_mul (by positivity)]
    calc i < 12 * (2 ^ z * 2 ^ z) := hi
    _ = 3 * 2 ^ z * (2 ^ z * 4) := by ring
  have hcol : i % (2 ^ z * 4) < 2 ^ z * 4 := Nat.mod_lt _ (by positivity)
  have hr0 : i / (2 ^ z * 4) / 2 ^ z < 3 := by
    rw [Nat.div_lt_iff_lt_mul hn]
    omega
  have hc0 : i % (2 ^ z * 4) / 2 ^ z < 4 := by
    rw [Nat.div_lt_iff_lt_mul hn]
    omega
  have hx : i / (2 ^ z * 4) % 2 ^ z < 2 ^ z := Nat.mod_lt _ hn
  have hy : i % (2 ^ z * 4) % 2 ^ z < 2 ^ z := Nat.mod_lt _ hn
  have hp : interleave (i / (2 ^ z * 4) % 2 ^ z) (i % (2 ^ z * 4) % 2 ^ z)
      < 2 ^ z * 2 ^ z := interleave_lt_pow hx hy
  exact div_mul_add_lt (by omega) hp

theorem tileIndexInv_tileIndex (z i : Nat) (hz : z ≤ 32) :
    tileIndexInv z (tileIndex z i) = i := by
  have hn : 0 < 2 ^ z := Nat.pos_pow_of_pos z (by norm_num)
  rw [tileIndex_eq, tileIndexInv_eq]
  set n := 2 ^ z with hdefn
  set row := i / (n * 4) with hrow
  set col := i % (n * 4) with hcol
  set x := row % n with hx
  set y := col % n with hy
  have hxn : x < n := Nat.mod_lt _ hn
  have hyn : y < n := Nat.mod_lt _ hn
  have hx32 : x < 2 ^ 32 :=
    lt_of_lt_of_le hxn (Nat.pow_le_pow_right (by norm_num) hz)
  have hy32 : y < 2 ^ 32 :=
    lt_of_lt_of_le hyn (Nat.pow_le_pow_right (by norm_num) hz)
  have hp : interleave x y < n * n := interleave_lt_pow hxn hyn
  set f := row / n * 4 + col / n with hf
  have ht1 : (f * (n * n) + interleave x y) / (n * n) = f := by
    rw [Nat.mul_comm f (n * n), Nat.mul_add_div (by positivity),
      Nat.div_eq_of_lt hp, Nat.add_zero]
  have ht2 : (f * (n * n) + interleave x y) % (n * n) = interleave x y := by
    rw [Nat.add_comm, Nat.add_mul_mod_self_right, Nat.mod_eq_of_lt hp]
  rw [ht1, ht2, deinterleave_fst x y hx32, deinterleave_snd x y hy32]
  have hc4 : col / n < 4 := by
    rw [Nat.div_lt_iff_lt_mul hn]
    have : col < n * 4 := by
      rw [hcol]
      exact Nat.mod_lt _ (by positivity)
    omega
  have hf4 : f / 4 = row / n := by
    rw [hf, Nat.mul_comm (row / n) 4, Nat.mul_add_div (by norm_num),
      Nat.div_eq_of_lt hc4, Nat.add_zero]
  have hf4b : f % 4 = col / n := by
    rw [hf, Nat.add_comm, Nat.add_mul_mod_self_right, Nat.mod_eq_of_lt hc4]
  rw [hf4, hf4b]
  have hrn : row / n * n + x = row := by
    calc row / n * n + x = n * (row / n) + row % n := by rw [Nat.mul_comm, hx]
    _ = row := Nat.div_add_mod row n
  have hcn : col / n * n + y = col := by
    calc col / n * n + y = n * (col / n) + col % n := by rw [Nat.mul_comm, hy]
    _ = col := Nat.div_add_mod col n
  rw [hrn, hcn]
  calc row * (n * 4) + col = (n * 4) * (i / (n * 4)) + i % (n * 4) := by
        rw [Nat.mul_comm, hrow, hcol]
  _ = i := Nat.div_add_mod i (n * 4)

theorem tileIndex_tileIndexInv (z t : Nat) (hz : z ≤ 32) :
    tileIndex z (tileIndexInv z t) = t := by
  have hn : 0 < 2 ^ z := Nat.pos_pow_of_pos z (by norm_num)
  rw [tileIndexInv_eq, tileIndex_eq]
  set n := 2 ^ z with hdefn
  set f := t / (n * n) with hf
  set r := t % (n * n) with hr
  set x := compress_bits r with hx
  set y := compress_bits (r >>> 1) with hy
  have hrn : r < n * n := by
    rw [hr]
    exact Nat.mod_lt _ (by positivity)
  have hxn : x < n := compress_lt_pow hrn
  have hyn : y < n := compress_shift_lt_pow hrn
  have hcol : f % 4 * n + y < n * 4 := by
    have h4 : f % 4 < 4 := Nat.mod_lt _ (by norm_num)
    calc f % 4 * n + y < f % 4 * n + n := by omega
    _ = (f % 4 + 1) * n := by ring
    _ ≤ 4 * n := Nat.mul_le_mul_right n (by omega)
    _ = n * 4 := by ring
  have hdiv : ((f / 4 * n + x) * (n * 4) + (f % 4 * n + y)) / (n * 4)
      = f / 4 * n + x := by
    rw [Nat.mul_comm (f / 4 * n + x) (n * 4), Nat.mul_add_div (by positivity),
      Nat.div_eq_of_lt hcol, Nat.add_zero]
  have hmod : ((f / 4 * n + x) * (n * 4) + (f % 4 * n + y)) % (n * 4)
      = f % 4 * n + y := by
    rw [Nat.add_comm, Nat.add_mul_mod_self_right, Nat.mod_eq_of_lt hcol]
  rw [hdiv, hmod]
  have hd1 : (f / 4 * n + x) / n = f / 4 := by
    rw [show f / 4 * n = n * (f / 4) from Nat.mul_comm _ _, Nat.mul_add_div hn,
      Nat.div_eq_of_lt hxn, Nat.add_zero]
  have hm1 : (f / 4 * n + x) % n = x := by
    rw [Nat.add_comm, Nat.add_mul_mod_self_right, Nat.mod_eq_of_lt hxn]
  have hd2 : (f % 4 * n + y) / n = f % 4 := by
    rw [show f % 4 * n = n * (f % 4) from Nat.mul_comm _ _, Nat.mul_add_div hn,
      Nat.div_eq_of_lt hyn, Nat.add_zero]
  have hm2 : (f % 4 * n + y) % n = y := by
    rw [Nat.add_comm, Nat.add_mul_mod_self_right, Nat.mod_eq_of_lt hyn]
  rw [hd1, hm1, hd2, hm2]
  have hf44 : f / 4 * 4 + f % 4 = f := by omega
  rw [hf44]
  have hr64 : r < 2 ^ 64 := by
    have hle : n * n ≤ 2 ^ 64 := by
      have h1 : n ≤ 2 ^ 32 := by
        rw [hdefn]
        exact Nat.pow_le_pow_right (by norm_num) hz
      calc n * n ≤ 2 ^ 32 * 2 ^ 32 := Nat.mul_le_mul h1 h1
      _ = 2 ^ 64 := by norm_num
    omega
  have hilv : interleave x y = r := by
    rw [hx, hy]
    exact interleave_deinterleave r hr64
  rw [hilv]
  calc f * (n * n) + r = (n * n) * (t / (n * n)) + t % (n * n) := by
        rw [Nat.mul_comm, hf, hr]
  _ = t := Nat.div_add_mod t (n * n)

theorem tileIndexInv_lt (z t : Nat) (ht : t < 12 * 4 ^ z) :
    tileIndexInv z t < 12 * 4 ^ z := by
  rw [tileIndexInv_eq, four_pow_eq] at *
  have hn : 0 < 2 ^ z := Nat.pos_pow_of_pos z (by norm_num)
  set n := 2 ^ z with hdefn
  set f := t / (n * n) with hf
  set r := t % (n * n) with hr
  have hrn : r < n * n := by
    rw [hr]
    exact Nat.mod_lt _ (by positivity)
  have hxn : compress_bits r < n := compress_lt_pow hrn
  have hyn : compress_bits (r >>> 1) < n := compress_shift_lt_pow hrn
  have hf12 : f < 12 := by
    rw [hf, Nat.div_lt_iff_lt_mul (by positivity)]
    exact ht
  have hrow : f / 4 * n + compress_bits r < 3 * n := by
    have h3 : f / 4 < 3 := by omega
    calc f / 4 * n + compress_bits r < f / 4 * n + n := by omega
    _ = (f / 4 + 1) * n := by ring
    _ ≤ 3 * n := Nat.mul_le_mul_right n (by omega)
  have hcol : f % 4 * n + compress_bits (r >>> 1) < n * 4 := by
    have h4 : f % 4 < 4 := Nat.mod_lt _ (by norm_num)
    calc f % 4 * n + compress_bits (r >>> 1) < f % 4 * n + n := by omega
    _ = (f % 4 + 1) * n := by ring
    _ ≤ 4 * n := Nat.mul_le_mul_right n (by omega)
    _ = n * 4 := by ring
  calc (f / 4 * n + compress_bits r) * (n * 4) + (f % 4 * n + compress_bits (r >>> 1))
      < 3 * n * (n * 4) := div_mul_add_lt hrow hcol
  _ = 12 * (n * n) := by ring

/-- C3 (amended): for every zoom level `z ≤ 32` with `n = 2^z`, the per-cell
mapping of the offset pass (grid index to global quad-tree index) is a
bijection from the full output grid `[0, 12*n^2)` onto the global quad-tree
index range `[0, 12*n^2)`: every global index is produced exactly once. -/
theorem c3_tile_locator_bijection (z : Nat) (hz : z ≤ 32) :
    Set.BijOn (tileIndex z) (Set.Iio (12 * 4 ^ z)) (Set.Iio (12 * 4 ^ z)) := by
  have hinv : Set.InvOn (tileIndexInv z) (tileIndex z)
      (Set.Iio (12 * 4 ^ z)) (Set.Iio (12 * 4 ^ z)) :=
    ⟨fun i _ => tileIndexInv_tileIndex z i hz, fun t _ => tileIndex_tileIndexInv z t hz⟩
  exact hinv.bijOn
    (fun i hi => Set.mem_Iio.mpr (tileIndex_lt z i (Set.mem_Iio.mp hi)))
    (fun t ht => Set.mem_Iio.mpr (tileIndexInv_lt z t (Set.mem_Iio.mp ht)))

/-- C3 counterexample: at zoom level `z = 33` the claim as stated fails,
because `spread_bits` masks its input to 32 bits: grid cells `0` and `2^67`
both map to global index `0`, so the mapping is not a bijection. -/
theorem c3_counterexample :
    ¬ Set.BijOn (tileIndex 33) (Set.Iio (12 * 4 ^ 33)) (Set.Iio (12 * 4 ^ 33)) := by
  intro h
  have h1 : (0 : Nat) ∈ Set.Iio (12 * 4 ^ 33) := Set.mem_Iio.mpr (by norm_num)
  have h2 : (2 ^ 67 : Nat) ∈ Set.Iio (12 * 4 ^ 33) := Set.mem_Iio.mpr (by norm_num)
  have heq : tileIndex 33 0 = tileIndex 33 (2 ^ 67) := by decide
  have := h.injOn h1 h2 heq
  norm_num at this

/-- Witness for C3 at zoom level 2. -/
theorem c3_tile_locator_bijection_witness :
    Set.BijOn (tileIndex 2) (Set.Iio (12 * 4 ^ 2)) (Set.Iio (12 * 4 ^ 2)) :=
  c3_tile_locator_bijection 2 (by norm_num)

/-- C1 evaluated at a failing input: at zoom 5, grid cell 8256 has global
quad-tree index 10240, and the offset pass (line 354) and the write pass
(line 374) resolve it to different shard directories (`Dir100000` vs
`Dir10000`), so the two passes do not use the identical sharding rule. -/
theorem c1_shard_divergence :
    tileIndex 5 8256 = 10240 ∧
    srcPathOffsetPass "root" 5 (tileIndex 5 8256)
      ≠ srcPathWritePass "root" 5 (tileIndex 5 8256) := by
  constructor
  · decide
  · decide

theorem srcPath_ne_10240 (root : String) :
    srcPathOffsetPass root 5 10240 ≠ srcPathWritePass root 5 10240 := by
  unfold srcPathOffsetPass srcPathWritePass
  intro he
  have hd := congrArg String.data he
  simp only [String.data_append, List.append_assoc] at hd
  have hc := List.append_cancel_left hd
  exact absurd hc (by decide)

/-- C10: for every zoom level `z ≤ 4`, every global quad-tree index produced
by the grid scan is below 10000 (the grid has at most `12 * 4^4 = 3072`
cells), so both passes' shard buckets evaluate to 0 and both passes resolve
every tile to the identical path under directory `Dir0`; the divergence is
observable at zoom 5 (grid cell 8256). -/
theorem c10_shard_agreement_low_zoom (root : String) :
    (∀ z, z ≤ 4 → ∀ i, i < 12 * 4 ^ z →
      tileIndex z i < 10000 ∧
      tileIndex z i / 10000 * 100000 = 0 ∧
      tileIndex z i / 10000 * 10000 = 0 ∧
      srcPathOffsetPass root z (tileIndex z i)
        = srcPathWritePass root z (tileIndex z i)) ∧
    (∃ i, i < 12 * 4 ^ 5 ∧
      srcPathOffsetPass root 5 (tileIndex 5 i)
        ≠ srcPathWritePass root 5 (tileIndex 5 i)) := by
  constructor
  · intro z hz i hi
    have hti : tileIndex z i < 12 * 4 ^ z := tileIndex_lt z i hi
    have hle : (12 : Nat) * 4 ^ z ≤ 12 * 4 ^ 4 :=
      Nat.mul_le_mul_left 12 (Nat.pow_le_pow_right (by norm_num) hz)
    have h10k : tileIndex z i < 10000 := by
      have h4 : (12 : Nat) * 4 ^ 4 = 3072 := by norm_num
      omega
    have hdiv0 : tileIndex z i / 10000 = 0 := Nat.div_eq_of_lt h10k
    refine ⟨h10k, ?_, ?_, ?_⟩
    · rw [hdiv0]
    · rw [hdiv0]
    · simp [srcPathOffsetPass, srcPathWritePass, hdiv0]
  · refine ⟨8256, by norm_num, ?_⟩
    have h5 : tileIndex 5 8256 = 10240 := by decide
    rw [h5]
    exact srcPath_ne_10240 root

/-- Witness for C10 at zoom 4, grid cell 100. -/
theorem c10_shard_agreement_low_zoom_witness :
    tileIndex 4 100 < 10000 ∧
    tileIndex 4 100 / 10000 * 100000 = 0 ∧
    tileIndex 4 100 / 10000 * 10000 = 0 ∧
    srcPathOffsetPass "root" 4 (tileIndex 4 100)
      = srcPathWritePass "root" 4 (tileIndex 4 100) :=
  (c10_shard_agreement_low_zoom "root").1 4 (by norm_num) 100 (by norm_num)

/-! ### Field Model: serialization error behaviour -/

theorem bind_ne_unsup {α β : Type} {x : Except SerError α} {f : α → Except SerError β}
    (hx : x ≠ .error .unsupported) (hf : ∀ a, f a ≠ .error .unsupported) :
    (x >>= f) ≠ .error .unsupported := by
  cases x with
  | error e =>
    simp only [bind, Except.bind]
    intro h
    apply hx
    injection h with he
    rw [he]
  | ok a =>
    simp only [bind, Except.bind]
    exact hf a

theorem packN_ne_unsup (w v : Nat) : packN w v ≠ .error .unsupported := by
  unfold packN
  split <;> simp

theorem packU_ne_unsup (w : Nat) (v : Int) : packU w v ≠ .error .unsupported := by
  unfold packU
  split <;> simp

theorem packS_ne_unsup (w : Nat) (v : Int) : packS w v ≠ .error .unsupported := by
  unfold packS
  split <;> simp

theorem packSeqU_ne_unsup (w : Nat) (vs : List Int) :
    packSeqU w vs ≠ .error .unsupported := by
  induction vs with
  | nil => simp [packSeqU]
  | cons v vs ih =>
    unfold packSeqU
    exact bind_ne_unsup (packU_ne_unsup w v) fun b =>
      bind_ne_unsup ih fun bs => by simp

theorem packSeqS_ne_unsup (w : Nat) (vs : List Int) :
    packSeqS w vs ≠ .error .unsupported := by
  induction vs with
  | nil => simp [packSeqS]
  | cons v vs ih =>
    unfold packSeqS
    exact bind_ne_unsup (packS_ne_unsup w v) fun b =>
      bind_ne_unsup ih fun bs => by simp

theorem packUs_ne_unsup (n w : Nat) (vs : List Int) :
    packUs n w vs ≠ .error .unsupported := by
  unfold packUs
  split
  · exact packSeqU_ne_unsup w vs
  · simp

theorem packSs_ne_unsup (n w : Nat) (vs : List Int) :
    packSs n w vs ≠ .error .unsupported := by
  unfold packSs
  split
  · exact packSeqS_ne_unsup w vs
  · simp

theorem pack_HHI_ne_unsup (id code count : Nat) (p : Except SerError (List Nat))
    (hp : p ≠ .error .unsupported) :
    pack_HHI id code count p ≠ .error .unsupported := by
  unfold pack_HHI
  exact bind_ne_unsup (packN_ne_unsup 2 id) fun a =>
    bind_ne_unsup (packN_ne_unsup 2 code) fun b =>
      bind_ne_unsup (packN_ne_unsup 4 count) fun c =>
        bind_ne_unsup hp fun d => by simp

theorem pack_HHQ_ne_unsup (id code count : Nat) (p : Except SerError (List Nat))
    (hp : p ≠ .error .unsupported) :
    pack_HHQ id code count p ≠ .error .unsupported := by
  unfold pack_HHQ
  exact bind_ne_unsup (packN_ne_unsup 2 id) fun a =>
    bind_ne_unsup (packN_ne_unsup 2 code) fun b =>
      bind_ne_unsup (packN_ne_unsup 8 count) fun c =>
        bind_ne_unsup hp fun d => by simp

theorem serialize_out_bucket (e : TiffEntry) (off : Int) (c : Bool)
    (h : e.type ∈ [TiffType.ASCII, .RATIONAL, .UNDEFINED, .SRATIONAL, .FLOAT, .DOUBLE]) :
    e.serialize off c = .error .unsupported := by
  obtain ⟨id, t, count, v⟩ := e
  cases t <;> first
    | (cases c <;> rfl)
    | simp at h

set_option maxHeartbeats 1600000 in
theorem serialize_in_bucket_ne (e : TiffEntry) (off : Int) (c : Bool)
    (h : e.type ∈ [TiffType.BYTE, .SHORT, .LONG, .SBYTE, .SSHORT, .SLONG]) :
    e.serialize off c ≠ .error .unsupported := by
  obtain ⟨id, t, count, v⟩ := e
  cases t <;> first
    | (simp at h
       done)
    | (cases c <;>
       · simp [TiffEntry.serialize, TIFF_BYTES]
         repeat' split
         all_goals first
           | exact pack_HHI_ne_unsup _ _ _ _ (packUs_ne_unsup _ _ _)
           | exact pack_HHI_ne_unsup _ _ _ _ (packSs_ne_unsup _ _ _)
           | exact pack_HHI_ne_unsup _ _ _ _ (packU_ne_unsup _ _)
           | exact pack_HHI_ne_unsup _ _ _ _ (packS_ne_unsup _ _)
           | exact pack_HHI_ne_unsup _ _ _ _ (packN_ne_unsup _ _)
           | exact pack_HHQ_ne_unsup _ _ _ _ (packUs_ne_unsup _ _ _)
           | exact pack_HHQ_ne_unsup _ _ _ _ (packSs_ne_unsup _ _ _)
           | exact pack_HHQ_ne_unsup _ _ _ _ (packU_ne_unsup _ _)
           | exact pack_HHQ_ne_unsup _ _ _ _ (packS_ne_unsup _ _)
           | exact pack_HHQ_ne_unsup _ _ _ _ (packN_ne_unsup _ _)
           | simp)

/-- C9: `serialize` signals the unsupported-encoding error (and returns no
record) for every field type outside the two handled numeric buckets —
that is, for ASCII, RATIONAL, UNDEFINED, SRATIONAL, FLOAT and DOUBLE, under
either variant — and never signals that error for the types inside the
buckets (unsigned and signed byte/short/long). -/
theorem c9_unsupported_encoding (e : TiffEntry) (off : Int) (c : Bool) :
    (e.type ∈ [TiffType.ASCII, .RATIONAL, .UNDEFINED, .SRATIONAL, .FLOAT, .DOUBLE] →
      e.serialize off c = .error .unsupported) ∧
    (e.type ∈ [TiffType.BYTE, .SHORT, .LONG, .SBYTE, .SSHORT, .SLONG] →
      e.serialize off c ≠ .error .unsupported) :=
  ⟨serialize_out_bucket e off c, serialize_in_bucket_ne e off c⟩

/-- Witness for C9: an ASCII entry is rejected as unsupported. -/
theorem c9_unsupported_encoding_witness :
    TiffEntry.serialize ⟨0x10e, .ASCII, 1, .scalar 0⟩ 0 true
      = .error .unsupported :=
  (c9_unsupported_encoding ⟨0x10e, .ASCII, 1, .scalar 0⟩ 0 true).1 (by simp)

/-- C4 evaluated at a failing input: under the 64-bit variant, a SHORT
entry with count 3 (total payload 6 bytes, at most the 8-byte BigTIFF
inline threshold) serializes inline — the 20-byte record embeds the
payload and no offset — yet `has_tail` applies the fixed 4-byte threshold,
so the entry still contributes 6 overflow-area bytes to the header. -/
theorem c4_inline_bigtiff_entry_emits_tail :
    (⟨0x102, .SHORT, 3, .list [8, 8, 8]⟩ : TiffEntry).count
        * TIFF_BYTES (⟨0x102, .SHORT, 3, .list [8, 8, 8]⟩ : TiffEntry).type = 6 ∧
    TiffEntry.serialize ⟨0x102, .SHORT, 3, .list [8, 8, 8]⟩ 0 false
      = .ok (some [2, 1, 3, 0, 3, 0, 0, 0, 0, 0, 0, 0, 8, 0, 8, 0, 8, 0, 0, 0]) ∧
    TiffEntry.has_tail ⟨0x102, .SHORT, 3, .list [8, 8, 8]⟩ = true ∧
    TiffEntry.tail ⟨0x102, .SHORT, 3, .list [8, 8, 8]⟩ = .ok [8, 0, 8, 0, 8, 0] :=
  ⟨rfl, rfl, rfl, rfl⟩

/-- C5 evaluated at failing inputs: for the signed numeric types, an entry
whose payload fits inline makes `serialize` return Python `None` instead of
a fixed-size record, because the inner branches of the signed bucket
compare the type against `BYTE`/`SHORT`/`LONG` rather than
`SBYTE`/`SSHORT`/`SLONG`, so none of them matches. -/
theorem c5_signed_inline_returns_none :
    TiffEntry.serialize ⟨0x200, .SBYTE, 1, .scalar 5⟩ 0 true = .ok none ∧
    TiffEntry.serialize ⟨0x200, .SBYTE, 1, .scalar 5⟩ 0 false = .ok none ∧
    TiffEntry.serialize ⟨0x201, .SSHORT, 2, .list [1, 2]⟩ 0 true = .ok none ∧
    TiffEntry.serialize ⟨0x202, .SLONG, 1, .scalar 7⟩ 0 true = .ok none ∧
    TiffEntry.serialize ⟨0x202, .SLONG, 2, .list [7, 8]⟩ 0 false = .ok none :=
  ⟨rfl, rfl, rfl, rfl, rfl⟩

/-! ### Container Builder: structural lemmas -/

theorem leBytes_length (w : Nat) : ∀ v, (leBytes w v).length = w := by
  induction w with
  | zero => intro v; rfl
  | succ w ih => intro v; simp [leBytes, ih]

theorem decodeLE_leBytes (w : Nat) : ∀ v, v < 2 ^ (8 * w) → decodeLE (leBytes w v) = v := by
  induction w with
  | zero =>
    intro v hv
    simp [Nat.mul_zero, Nat.pow_zero] at hv
    simp [leBytes, decodeLE, hv]
  | succ w ih =>
    intro v hv
    have hdiv : v / 256 < 2 ^ (8 * w) := by
      rw [Nat.div_lt_iff_lt_mul (by norm_num)]
      calc v < 2 ^ (8 * (w + 1)) := hv
      _ = 2 ^ (8 * w) * 256 := by rw [Nat.mul_add, Nat.pow_add]
    rw [show leBytes (w + 1) v = v % 256 :: leBytes w (v / 256) from rfl]
    simp only [decodeLE]
    rw [ih (v / 256) hdiv]
    omega

theorem packN_ok {w v : Nat} {bs : List Nat} (h : packN w v = .ok bs) :
    bs = leBytes w v ∧ v < 2 ^ (8 * w) := by
  unfold packN at h
  split at h
  · exact ⟨by injection h with h2; rw [← h2], by assumption⟩
  · cases h

theorem packU_ok {w : Nat} {v : Int} {bs : List Nat} (h : packU w v = .ok bs) :
    bs.length = w := by
  unfold packU at h
  split at h
  · injection h with h2
    rw [← h2, leBytes_length]
  · cases h

theorem packS_ok {w : Nat} {v : Int} {bs : List Nat} (h : packS w v = .ok bs) :
    bs.length = w := by
  unfold packS at h
  split at h
  · injection h with h2
    rw [← h2, leBytes_length]
  · cases h

theorem packSeqU_ok {w : Nat} : ∀ {vs : List Int} {bs : List Nat},
    packSeqU w vs = .ok bs → bs.length = vs.length * w := by
  intro vs
  induction vs with
  | nil =>
    intro bs h
    injection h with h2
    simp [← h2]
  | cons v vs ih =>
    intro bs h
    unfold packSeqU at h
    cases hb : packU w v with
    | error e => rw [hb] at h; cases h
    | ok b =>
      rw [hb] at h
      simp only [bind, Except.bind] at h
      cases hbs : packSeqU w vs with
      | error e => rw [hbs] at h; cases h
      | ok bs2 =>
        rw [hbs] at h
        injection h with h2
        rw [← h2]
        simp [packU_ok hb, ih hbs, List.length_append, Nat.succ_mul, Nat.add_comm]

theorem packSeqS_ok {w : Nat} : ∀ {vs : List Int} {bs : List Nat},
    packSeqS w vs = .ok bs → bs.length = vs.length * w := by
  intro vs
  induction vs with
  | nil =>
    intro bs h
    injection h with h2
    simp [← h2]
  | cons v vs ih =>
    intro bs h
    unfold packSeqS at h
    cases hb : packS w v with
    | error e => rw [hb] at h; cases h
    | ok b =>
      rw [hb] at h
      simp only [bind, Except.bind] at h
      cases hbs : packSeqS w vs with
      | error e => rw [hbs] at h; cases h
      | ok bs2 =>
        rw [hbs] at h
        injection h with h2
        rw [← h2]
        simp [packS_ok hb, ih hbs, List.length_append, Nat.succ_mul, Nat.add_comm]

theorem packUs_ok {n w : Nat} {vs : List Int} {bs : List Nat}
    (h : packUs n w vs = .ok bs) : bs.length = n * w := by
  unfold packUs at h
  split at h
  · rename_i heq
    rw [packSeqU_ok h, heq]
  · cases h

theorem packSs_ok {n w : Nat} {vs : List Int} {bs : List Nat}
    (h : packSs n w vs = .ok bs) : bs.length = n * w := by
  unfold packSs at h
  split at h
  · rename_i heq
    rw [packSeqS_ok h, heq]
  · cases h

theorem pack_HHI_ok {id code count : Nat} {p : Except SerError (List Nat)}
    {bs : List Nat} (h : pack_HHI id code count p = .ok (some bs)) :
    ∃ d, p = .ok d
      ∧ bs = leBytes 2 id ++ leBytes 2 code ++ leBytes 4 count ++ d
      ∧ id < 2 ^ 16 ∧ code < 2 ^ 16 ∧ count < 2 ^ 32 := by
  unfold pack_HHI at h
  cases hA : packN 2 id with
  | error e => simp [hA, bind, Except.bind] at h
  | ok a =>
    cases hB : packN 2 code with
    | error e => simp [hA, hB, bind, Except.bind] at h
    | ok b =>
      cases hC : packN 4 count with
      | error e => simp [hA, hB, hC, bind, Except.bind] at h
      | ok c2 =>
        cases hD : p with
        | error e => simp [hA, hB, hC, hD, bind, Except.bind] at h
        | ok d =>
          simp only [hA, hB, hC, hD, bind, Except.bind] at h
          obtain ⟨hA1, hA2⟩ := packN_ok hA
          obtain ⟨hB1, hB2⟩ := packN_ok hB
          obtain ⟨hC1, hC2⟩ := packN_ok hC
          injection h with h2
          injection h2 with h3
          refine ⟨d, rfl, ?_, ?_, ?_, ?_⟩
          · rw [← h3, hA1, hB1, hC1]
          · exact hA2
          · exact hB2
          · exact hC2

theorem pack_HHQ_ok {id code count : Nat} {p : Except SerError (List Nat)}
    {bs : List Nat} (h : pack_HHQ id code count p = .ok (some bs)) :
    ∃ d, p = .ok d
      ∧ bs = leBytes 2 id ++ leBytes 2 code ++ leBytes 8 count ++ d
      ∧ id < 2 ^ 16 ∧ code < 2 ^ 16 ∧ count < 2 ^ 64 := by
  unfold pack_HHQ at h
  cases hA : packN 2 id with
  | error e => simp [hA, bind, Except.bind] at h
  | ok a =>
    cases hB : packN 2 code with
    | error e => simp [hA, hB, bind, Except.bind] at h
    | ok b =>
      cases hC : packN 8 count with
      | error e => simp [hA, hB, hC, bind, Except.bind] at h
      | ok c2 =>
        cases hD : p with
        | error e => simp [hA, hB, hC, hD, bind, Except.bind] at h
        | ok d =>
          simp only [hA, hB, hC, hD, bind, Except.bind] at h
          obtain ⟨hA1, hA2⟩ := packN_ok hA
          obtain ⟨hB1, hB2⟩ := packN_ok hB
          obtain ⟨hC1, hC2⟩ := packN_ok hC
          injection h with h2
          injection h2 with h3
          refine ⟨d, rfl, ?_, ?_, ?_, ?_⟩
          · rw [← h3, hA1, hB1, hC1]
          · exact hA2
          · exact hB2
          · exact hC2

set_option maxHeartbeats 1600000 in
theorem serialize_ok_length {e : TiffEntry} {off : Int} {c : Bool} {bs : List Nat}
    (h : e.serialize off c = .ok (some bs)) : bs.length = recSize c := by
  obtain ⟨id, t, count, v⟩ := e
  cases t <;> cases c <;>
    · simp [TiffEntry.serialize] at h
      repeat' split at h
      all_goals first
        | (obtain ⟨d, hd, hbs, h1, h2, h3⟩ := pack_HHI_ok h
           subst hbs
           first
             | simp [List.length_append, leBytes_length, packUs_ok hd, recSize]
             | simp [List.length_append, leBytes_length, packSs_ok hd, recSize]
             | simp [List.length_append, leBytes_length, packU_ok hd, recSize]
             | simp [List.length_append, leBytes_length, packS_ok hd, recSize]
             | simp [List.length_append, leBytes_length, (packN_ok hd).1, recSize])
        | (obtain ⟨d, hd, hbs, h1, h2, h3⟩ := pack_HHQ_ok h
           subst hbs
           first
             | simp [List.length_append, leBytes_length, packUs_ok hd, recSize]
             | simp [List.length_append, leBytes_length, packSs_ok hd, recSize]
             | simp [List.length_append, leBytes_length, packU_ok hd, recSize]
             | simp [List.length_append, leBytes_length, packS_ok hd, recSize]
             | simp [List.length_append, leBytes_length, (packN_ok hd).1, recSize])
        | simp at h

set_option maxHeartbeats 1600000 in
theorem serialize_overflow {e : TiffEntry} {off : Int} {c : Bool} {bs : List Nat}
    (h : e.serialize off c = .ok (some bs))
    (hov : e.count * TIFF_BYTES e.type > (if c then 4 else 8)) :
    bs = leBytes 2 e.id ++ leBytes 2 e.type.code ++ leBytes (slotW c) e.count
        ++ leBytes (slotW c) off.toNat
      ∧ off.toNat < 2 ^ (8 * slotW c) := by
  obtain ⟨id, t, count, v⟩ := e
  cases t <;> cases c <;>
    · simp [TiffEntry.serialize, TIFF_BYTES] at h hov
      repeat' split at h
      all_goals first
        | (obtain ⟨d, hd, hbs, hh1, hh2, hh3⟩ := pack_HHI_ok h
           obtain ⟨hd1, hd2⟩ := packN_ok hd
           subst hbs
           subst hd1
           constructor
           · simp [slotW, TiffType.code]
           · simpa [slotW] using hd2)
        | (obtain ⟨d, hd, hbs, hh1, hh2, hh3⟩ := pack_HHQ_ok h
           obtain ⟨hd1, hd2⟩ := packN_ok hd
           subst hbs
           subst hd1
           constructor
           · simp [slotW, TiffType.code]
           · simpa [slotW] using hd2)
        | (exfalso
           omega)

theorem serializeLoop_ok {c : Bool} {off : Int} :
    ∀ {entries : List TiffEntry} {acc : Nat} {bs : List Nat} {accFin : Nat},
    serializeLoop c off acc entries = .ok (bs, accFin) →
    ∃ tls : List (List Nat),
      tailsOf entries = .ok tls ∧
      tls.length = entries.length ∧
      accFin = acc + (tls.map List.length).sum ∧
      bs.length = entries.length * recSize c ∧
      ∀ k, k < entries.length →
        ∃ rbs : List Nat,
          (entries.getD k default).serialize
              (off + ((acc + ((tls.take k).map List.length).sum : Nat) : Int)) c
            = .ok (some rbs) ∧
          rbs.length = recSize c ∧
          (bs.drop (k * recSize c)).take (recSize c) = rbs := by
  intro entries
  induction entries with
  | nil =>
    intro acc bs accFin h
    injection h with h2
    injection h2 with hbs hacc
    refine ⟨[], rfl, rfl, by simp [← hacc], by simp [← hbs], ?_⟩
    intro k hk
    exact absurd hk (by simp)
  | cons e rest ih =>
    intro acc bs accFin h
    unfold serializeLoop at h
    cases hs : e.serialize (off + (acc : Nat)) c with
    | error err => rw [hs] at h; cases h
    | ok r =>
      rw [hs] at h
      simp only [bind, Except.bind] at h
      cases r with
      | none => cases h
      | some rb =>
        cases htl : e.tail with
        | error err => rw [htl] at h; cases h
        | ok t =>
          rw [htl] at h
          simp only [bind, Except.bind] at h
          cases hloop : serializeLoop c off (acc + t.length) rest with
          | error err => rw [hloop] at h; cases h
          | ok pr =>
            rw [hloop] at h
            simp only [bind, Except.bind] at h
            obtain ⟨bs2, acc2⟩ := pr
            injection h with h2
            injection h2 with hbs hacc
            obtain ⟨tls, htls, htlen, hacc2, hblen, hrec⟩ := ih hloop
            have hrblen : rb.length = recSize c := serialize_ok_length hs
            refine ⟨t :: tls, ?_, by simp [htlen], ?_, ?_, ?_⟩
            · unfold tailsOf
              rw [htl]
              simp only [bind, Except.bind]
              rw [htls]
            · rw [← hacc, hacc2]
              simp only [List.map_cons, List.sum_cons]
              omega
            · rw [← hbs]
              simp only [List.length_append, List.length_cons, hrblen, hblen, Nat.succ_mul]
              omega
            · intro k hk
              cases k with
              | zero =>
                refine ⟨rb, ?_, hrblen, ?_⟩
                · simpa using hs
                · rw [← hbs]
                  simp [List.take_left' hrblen]
              | succ k =>
                have hk2 : k < rest.length := by simpa using hk
                obtain ⟨rbs, hser, hrlen, hslice⟩ := hrec k hk2
                refine ⟨rbs, ?_, hrlen, ?_⟩
                · have harg : (acc + ((((t :: tls).take (k + 1)).map List.length).sum) : Nat)
                      = ((acc + t.length) + (((tls.take k).map List.length).sum) : Nat) := by
                    simp only [List.take_succ_cons, List.map_cons, List.sum_cons]
                    omega
                  simp only [List.getD_cons_succ]
                  rw [harg]
                  exact hser
                · rw [← hbs, ← hslice]
                  congr 1
                  have hstep : (k + 1) * recSize c = rb.length + k * recSize c := by
                    rw [hrblen]
                    ring
                  rw [hstep, ← List.drop_drop, List.drop_left]

theorem buildHeaderOnce_ok {b : TiffBuilder} {off : Int} {hdr : List Nat} {p : Nat}
    (h : buildHeaderOnce b off = .ok (hdr, p)) :
    ∃ (recsBytes : List Nat) (accF : Nat) (tls : List (List Nat)),
      serializeLoop b.classical off 0 b.entries = .ok (recsBytes, accF) ∧
      tailsOf b.entries = .ok tls ∧
      hdr = magicBytes b.classical b.entries.length ++ recsBytes
          ++ List.replicate (termLen b.classical) 0 ++ tls.flatten ∧
      p = prefixLen b.classical + recsBytes.length + termLen b.classical := by
  obtain ⟨cl, entries⟩ := b
  unfold buildHeaderOnce at h
  cases cl
  · cases hpk : packN 8 entries.length with
    | error e => simp [hpk, bind, Except.bind, pure, Except.pure] at h
    | ok cbytes =>
      cases hloop : serializeLoop false off 0 entries with
      | error e => simp [hpk, hloop, bind, Except.bind, pure, Except.pure] at h
      | ok pr =>
        cases htls : tailsOf entries with
        | error e => simp [hpk, hloop, htls, bind, Except.bind, pure, Except.pure] at h
        | ok tls =>
          obtain ⟨recsBytes, accF⟩ := pr
          simp only [hpk, hloop, htls, bind, Except.bind, pure, Except.pure] at h
          injection h with h2
          injection h2 with hhdr hp
          refine ⟨recsBytes, accF, tls, rfl, rfl, ?_, ?_⟩
          · rw [← hhdr]
            obtain ⟨hc1, _⟩ := packN_ok hpk
            rw [hc1]
            simp [magicBytes, termLen, List.append_assoc]
          · rw [← hp]
            obtain ⟨hc1, _⟩ := packN_ok hpk
            rw [hc1]
            simp [prefixLen, termLen, leBytes_length, List.length_append]
            omega
  · cases hpk : packN 2 entries.length with
    | error e => simp [hpk, bind, Except.bind, pure, Except.pure] at h
    | ok cbytes =>
      cases hloop : serializeLoop true off 0 entries with
      | error e => simp [hpk, hloop, bind, Except.bind, pure, Except.pure] at h
      | ok pr =>
        cases htls : tailsOf entries with
        | error e => simp [hpk, hloop, htls, bind, Except.bind, pure, Except.pure] at h
        | ok tls =>
          obtain ⟨recsBytes, accF⟩ := pr
          simp only [hpk, hloop, htls, bind, Except.bind, pure, Except.pure] at h
          injection h with h2
          injection h2 with hhdr hp
          refine ⟨recsBytes, accF, tls, rfl, rfl, ?_, ?_⟩
          · rw [← hhdr]
            obtain ⟨hc1, _⟩ := packN_ok hpk
            rw [hc1]
            simp [magicBytes, termLen, List.append_assoc]
          · rw [← hp]
            obtain ⟨hc1, _⟩ := packN_ok hpk
            rw [hc1]
            simp [prefixLen, termLen, leBytes_length, List.length_append]
            omega

theorem build_header_nonneg {b : TiffBuilder} {off : Int} {hdr : List Nat}
    (hoff : 0 ≤ off) (h : b.build_header off = .ok hdr) :
    ∃ p, buildHeaderOnce b off = .ok (hdr, p) := by
  unfold TiffBuilder.build_header at h
  cases hone : buildHeaderOnce b off with
  | error e =>
    simp only [hone, bind, Except.bind] at h
    cases h
  | ok hp =>
    obtain ⟨h1, p⟩ := hp
    simp only [hone, bind, Except.bind] at h
    rw [if_neg (by omega : ¬ off < 0)] at h
    simp only [pure, Except.pure] at h
    injection h with h2
    exact ⟨p, by rw [h2]⟩

theorem build_header_neg {b : TiffBuilder} {hdr : List Nat}
    (h : b.build_header (-1) = .ok hdr) :
    ∃ h1 p p2, buildHeaderOnce b (-1) = .ok (h1, p)
      ∧ buildHeaderOnce b (p : Int) = .ok (hdr, p2) := by
  unfold TiffBuilder.build_header at h
  cases hone : buildHeaderOnce b (-1) with
  | error e =>
    simp only [hone, bind, Except.bind] at h
    cases h
  | ok hp =>
    obtain ⟨h1, p⟩ := hp
    simp only [hone, bind, Except.bind] at h
    rw [if_pos (by norm_num : (-1 : Int) < 0)] at h
    cases h2 : buildHeaderOnce b (p : Int) with
    | error e =>
      simp only [h2, bind, Except.bind] at h
      cases h
    | ok hp2 =>
      obtain ⟨hdr2, p2⟩ := hp2
      simp only [h2, bind, Except.bind, pure, Except.pure] at h
      injection h with hh
      refine ⟨h1, p, p2, rfl, ?_⟩
      rw [← hh]
      exact h2

/-- C6: for every fixed entry sequence that serializes without error, the
total byte length of the built header does not depend on the overflow-area
base offset passed in: for all non-negative base offsets `o1` and `o2`,
`len(build_header(o1)) == len(build_header(o2))`; hence the length learned
in pass 1 equals the length of the final pass-2 header and exactly two
passes always suffice. -/
theorem c6_header_length_offset_invariant (b : TiffBuilder) (o1 o2 : Int)
    (h1pos : 0 ≤ o1) (h2pos : 0 ≤ o2) (hdr1 hdr2 : List Nat)
    (h1 : b.build_header o1 = .ok hdr1) (h2 : b.build_header o2 = .ok hdr2) :
    hdr1.length = hdr2.length := by
  obtain ⟨p1, hb1⟩ := build_header_nonneg h1pos h1
  obtain ⟨p2, hb2⟩ := build_header_nonneg h2pos h2
  obtain ⟨recs1, accF1, tls1, hloop1, htls1, hhdr1, hp1⟩ := buildHeaderOnce_ok hb1
  obtain ⟨recs2, accF2, tls2, hloop2, htls2, hhdr2, hp2⟩ := buildHeaderOnce_ok hb2
  have htls12 : tls1 = tls2 := by
    rw [htls1] at htls2
    injection htls2
  obtain ⟨tlsA, _, _, _, hlen1, _⟩ := serializeLoop_ok hloop1
  obtain ⟨tlsB, _, _, _, hlen2, _⟩ := serializeLoop_ok hloop2
  rw [hhdr1, hhdr2]
  simp [List.length_append, hlen1, hlen2, htls12]

/-- Witness for C6: a one-entry classical builder built at base offsets 0
and 37 yields headers of the same length. -/
theorem c6_header_length_offset_invariant_witness :
    ((TiffBuilder.build_header ⟨true, [⟨0x102, .SHORT, 3, .list [8, 8, 8]⟩]⟩ 0).toOption.getD []).length
      = ((TiffBuilder.build_header ⟨true, [⟨0x102, .SHORT, 3, .list [8, 8, 8]⟩]⟩ 37).toOption.getD []).length :=
  c6_header_length_offset_invariant ⟨true, [⟨0x102, .SHORT, 3, .list [8, 8, 8]⟩]⟩ 0 37
    (by norm_num) (by norm_num) _ _ rfl rfl

theorem drop_append_len {α : Type} (a b : List α) (i : Nat) :
    (a ++ b).drop (a.length + i) = b.drop i := by
  rw [← List.drop_drop, List.drop_left]

theorem slice_append {α : Type} (a b : List α) (i w : Nat) (h : i + w ≤ a.length) :
    ((a ++ b).drop i).take w = (a.drop i).take w := by
  rw [List.drop_append_of_le_length (by omega), List.take_append_of_le_length (by
    simp [List.length_drop]
    omega)]

theorem magicBytes_length (c : Bool) (n : Nat) :
    (magicBytes c n).length = prefixLen c := by
  cases c <;> simp [magicBytes, prefixLen, leBytes_length, List.length_append]

theorem slot_split (c : Bool) : slotOff c + slotW c = recSize c := by
  cases c <;> rfl

theorem flatten_slice_getD {α : Type} : ∀ (tls : List (List α)) (k : Nat), k < tls.length →
    (tls.flatten.drop (((tls.take k).map List.length).sum)).take (tls.getD k []).length
      = tls.getD k [] := by
  intro tls
  induction tls with
  | nil =>
    intro k hk
    simp at hk
  | cons t rest ih =>
    intro k hk
    cases k with
    | zero =>
      simp only [List.flatten_cons, List.take_zero, List.map_nil, List.sum_nil,
        List.drop_zero, List.getD_cons_zero]
      exact List.take_left t rest.flatten
    | succ k =>
      have hk2 : k < rest.length := by simpa using hk
      simp only [List.flatten_cons, List.take_succ_cons, List.map_cons, List.sum_cons,
        List.getD_cons_succ]
      rw [drop_append_len]
      exact ih k hk2

/-- C7: in a header built with the default self-resolving call
(`build_header(-1)`), every entry whose payload exceeds the variant's
overflow threshold stores in its record's value slot an absolute offset
that points exactly at the first byte of that entry's own tail bytes
within the built header — the offset equals the overflow-area base (the
fixed part's length) plus the summed lengths of all preceding entries'
tails, so it never points at another entry's tail. -/
theorem c7_overflow_offsets_point_at_own_tail (b : TiffBuilder) (hdr : List Nat)
    (hb : b.build_header (-1) = .ok hdr) (k : Nat) (hk : k < b.entries.length)
    (hov : (b.entries.getD k default).count * TIFF_BYTES (b.entries.getD k default).type
      > (if b.classical then 4 else 8)) :
    ∃ (tls : List (List Nat)) (o : Nat),
      tailsOf b.entries = .ok tls ∧
      o = fixedLen b.classical b.entries.length + ((tls.take k).map List.length).sum ∧
      (hdr.drop (prefixLen b.classical + k * recSize b.classical
          + slotOff b.classical)).take (slotW b.classical) = leBytes (slotW b.classical) o ∧
      decodeLE ((hdr.drop (prefixLen b.classical + k * recSize b.classical
          + slotOff b.classical)).take (slotW b.classical)) = o ∧
      (hdr.drop o).take (tls.getD k []).length = tls.getD k [] := by
  obtain ⟨hdr1, p, p2, hb1, hb2⟩ := build_header_neg hb
  obtain ⟨recs1, accF1, tls1, hloop1, htls1, hhdr1, hp1⟩ := buildHeaderOnce_ok hb1
  obtain ⟨recs2, accF2, tls2, hloop2, htls2, hhdr2, hp2⟩ := buildHeaderOnce_ok hb2
  obtain ⟨tlsA, htlsA, _, _, hlen1, _⟩ := serializeLoop_ok hloop1
  obtain ⟨tlsB, htlsB, hBlen, hBacc, hlen2, hrec2⟩ := serializeLoop_ok hloop2
  have htls2B : tls2 = tlsB := by
    rw [htls2] at htlsB
    injection htlsB
  rw [htls2B] at hhdr2
  have hp_fixed : p = fixedLen b.classical b.entries.length := by
    unfold fixedLen
    rw [hp1, hlen1]
  obtain ⟨rbs, hser, hrlen, hslice⟩ := hrec2 k hk
  have hargNat : (((p : Int) + ((0 + ((tlsB.take k).map List.length).sum : Nat) : Int))).toNat
      = p + ((tlsB.take k).map List.length).sum := by omega
  obtain ⟨hshape, hbound⟩ := serialize_overflow hser hov
  rw [hargNat] at hshape hbound
  have hreclen2 : k * recSize b.classical + slotOff b.classical + slotW b.classical
      ≤ recs2.length := by
    rw [hlen2]
    have hsplit := slot_split b.classical
    calc k * recSize b.classical + slotOff b.classical + slotW b.classical
        = k * recSize b.classical + recSize b.classical := by omega
    _ = (k + 1) * recSize b.classical := by ring
    _ ≤ b.entries.length * recSize b.classical := Nat.mul_le_mul_right _ hk
  have hpre : (leBytes 2 (b.entries.getD k default).id
      ++ leBytes 2 (b.entries.getD k default).type.code
      ++ leBytes (slotW b.classical) (b.entries.getD k default).count).length
      = slotOff b.classical := by
    simp only [List.length_append, leBytes_length]
    cases b.classical <;> simp [slotW, slotOff]
  have hslotfinal : (hdr.drop (prefixLen b.classical + k * recSize b.classical
      + slotOff b.classical)).take (slotW b.classical)
      = leBytes (slotW b.classical) (p + ((tlsB.take k).map List.length).sum) := by
    rw [hhdr2]
    simp only [List.append_assoc]
    have hpos : prefixLen b.classical + k * recSize b.classical + slotOff b.classical
        = (magicBytes b.classical b.entries.length).length
          + (k * recSize b.classical + slotOff b.classical) := by
      rw [magicBytes_length]
      omega
    rw [hpos, drop_append_len, slice_append _ _ _ _ hreclen2]
    have hslot : (recs2.drop (k * recSize b.classical + slotOff b.classical)).take
        (slotW b.classical) = (rbs.drop (slotOff b.classical)).take (slotW b.classical) := by
      rw [← hslice, List.drop_take, List.drop_drop, List.take_take]
      have hsplit := slot_split b.classical
      congr 1
      omega
    rw [hslot, hshape, List.drop_left' hpre]
    exact List.take_of_length_le (by rw [leBytes_length])
  refine ⟨tlsB, p + ((tlsB.take k).map List.length).sum, htlsB, ?_, hslotfinal, ?_, ?_⟩
  · rw [hp_fixed]
  · rw [hslotfinal]
    exact decodeLE_leBytes _ _ hbound
  · have ho : p + ((tlsB.take k).map List.length).sum
        = (magicBytes b.classical b.entries.length).length
          + (recs2.length + ((List.replicate (termLen b.classical) (0 : Nat)).length
            + ((tlsB.take k).map List.length).sum)) := by
      rw [magicBytes_length, hlen2, List.length_replicate, hp_fixed]
      unfold fixedLen
      omega
    rw [hhdr2]
    simp only [List.append_assoc]
    rw [ho, drop_append_len, drop_append_len, drop_append_len]
    exact flatten_slice_getD tlsB k (by rw [hBlen]; exact hk)

/-- Witness for C7: a classical builder with one overflowing entry
(SHORT, count 3), built with the default self-resolving call. -/
theorem c7_overflow_offsets_point_at_own_tail_witness :
    ∃ (tls : List (List Nat)) (o : Nat),
      tailsOf ([⟨0x102, .SHORT, 3, .list [8, 8, 8]⟩] : List TiffEntry) = .ok tls ∧
      o = fixedLen true 1 + ((tls.take 0).map List.length).sum ∧
      (((TiffBuilder.build_header ⟨true, [⟨0x102, .SHORT, 3, .list [8, 8, 8]⟩]⟩
          (-1)).toOption.getD []).drop (prefixLen true + 0 * recSize true
          + slotOff true)).take (slotW true) = leBytes (slotW true) o ∧
      decodeLE ((((TiffBuilder.build_header ⟨true, [⟨0x102, .SHORT, 3, .list [8, 8, 8]⟩]⟩
          (-1)).toOption.getD []).drop (prefixLen true + 0 * recSize true
          + slotOff true)).take (slotW true)) = o ∧
      (((TiffBuilder.build_header ⟨true, [⟨0x102, .SHORT, 3, .list [8, 8, 8]⟩]⟩
          (-1)).toOption.getD []).drop o).take (tls.getD 0 []).length = tls.getD 0 [] :=
  c7_overflow_offsets_point_at_own_tail ⟨true, [⟨0x102, .SHORT, 3, .list [8, 8, 8]⟩]⟩
    ((TiffBuilder.build_header ⟨true, [⟨0x102, .SHORT, 3, .list [8, 8, 8]⟩]⟩
      (-1)).toOption.getD []) (by rfl) 0 (by norm_num) (by decide)

theorem offsetPass_counts : ∀ (dh : Nat) (sizes : List Nat),
    (offsetPass dh sizes).2.1 = sizes := by
  intro dh sizes
  induction sizes generalizing dh with
  | nil => rfl
  | cons s rest ih => simp [offsetPass, ih]

theorem offsetPass_head (dh s : Nat) (rest : List Nat) :
    (offsetPass dh (s :: rest)).1.getD 0 0 = dh := by
  simp [offsetPass]

theorem offsetPass_fin : ∀ (dh : Nat) (sizes : List Nat),
    (offsetPass dh sizes).2.2 = dh + sizes.sum := by
  intro dh sizes
  induction sizes generalizing dh with
  | nil => simp [offsetPass]
  | cons s rest ih => simp [offsetPass, ih, Nat.add_assoc]

theorem offsetPass_contig : ∀ (sizes : List Nat) (dh i : Nat), i + 1 < sizes.length →
    (offsetPass dh sizes).1.getD (i + 1) 0
      = (offsetPass dh sizes).1.getD i 0 + (offsetPass dh sizes).2.1.getD i 0 := by
  intro sizes
  induction sizes with
  | nil =>
    intro dh i hi
    simp at hi
  | cons s rest ih =>
    intro dh i hi
    cases i with
    | zero =>
      have hne : rest ≠ [] := by
        intro hcon
        rw [hcon] at hi
        simp at hi
      obtain ⟨r, rest2, hr⟩ := List.exists_cons_of_ne_nil hne
      subst hr
      simp [offsetPass]
    | succ i =>
      have hi2 : i + 1 < rest.length := by simpa using hi
      simp only [offsetPass, List.getD_cons_succ]
      exact ih (dh + s) i hi2

/-- C8: after the offset-computation pass, the tile descriptor arrays are
contiguous and anchored at the header: the first offset equals the byte
length of the built header, each following offset is the previous offset
plus the previous byte count, and the final running total (the output file
size) is the header length plus the sum of all tile byte lengths. The
`os.stat` results are abstracted as the list `sizes`. -/
theorem c8_offset_contiguity (classical : Bool)
    (image_width image_height tile_width tile_height total_tile : Nat)
    (sizes : List Nat) (hlen : sizes.length = total_tile) (hdr : List Nat)
    (hbuild : TiffBuilder.build_header
      ⟨classical, mainEntries classical image_width image_height tile_width tile_height
        total_tile (List.replicate total_tile 0) (List.replicate total_tile 0)⟩ (-1)
      = .ok hdr) :
    (0 < total_tile → (offsetPass hdr.length sizes).1.getD 0 0 = hdr.length) ∧
    (∀ i, i + 1 < total_tile →
      (offsetPass hdr.length sizes).1.getD (i + 1) 0
        = (offsetPass hdr.length sizes).1.getD i 0
          + (offsetPass hdr.length sizes).2.1.getD i 0) ∧
    (offsetPass hdr.length sizes).2.2 = hdr.length + sizes.sum := by
  refine ⟨?_, ?_, offsetPass_fin hdr.length sizes⟩
  · intro hpos
    cases sizes with
    | nil =>
      rw [← hlen] at hpos
      simp at hpos
    | cons s rest => exact offsetPass_head hdr.length s rest
  · intro i hi
    exact offsetPass_contig sizes hdr.length i (by omega)

set_option maxRecDepth 10000 in
/-- Witness for C8: the classical variant with 3 tiles of sizes 5, 6, 7. -/
theorem c8_offset_contiguity_witness :
    (0 < 3 → (offsetPass ((TiffBuilder.build_header
        ⟨true, mainEntries true 40 30 10 10 3 (List.replicate 3 0)
          (List.replicate 3 0)⟩ (-1)).toOption.getD []).length [5, 6, 7]).1.getD 0 0
      = ((TiffBuilder.build_header
        ⟨true, mainEntries true 40 30 10 10 3 (List.replicate 3 0)
          (List.replicate 3 0)⟩ (-1)).toOption.getD []).length) ∧
    (∀ i, i + 1 < 3 →
      (offsetPass ((TiffBuilder.build_header
          ⟨true, mainEntries true 40 30 10 10 3 (List.replicate 3 0)
            (List.replicate 3 0)⟩ (-1)).toOption.getD []).length [5, 6, 7]).1.getD (i + 1) 0
        = (offsetPass ((TiffBuilder.build_header
            ⟨true, mainEntries true 40 30 10 10 3 (List.replicate 3 0)
              (List.replicate 3 0)⟩ (-1)).toOption.getD []).length [5, 6, 7]).1.getD i 0
          + (offsetPass ((TiffBuilder.build_header
              ⟨true, mainEntries true 40 30 10 10 3 (List.replicate 3 0)
                (List.replicate 3 0)⟩ (-1)).toOption.getD []).length [5, 6, 7]).2.1.getD i 0) ∧
    (offsetPass ((TiffBuilder.build_header
        ⟨true, mainEntries true 40 30 10 10 3 (List.replicate 3 0)
          (List.replicate 3 0)⟩ (-1)).toOption.getD []).length [5, 6, 7]).2.2
      = ((TiffBuilder.build_header
        ⟨true, mainEntries true 40 30 10 10 3 (List.replicate 3 0)
          (List.replicate 3 0)⟩ (-1)).toOption.getD []).length + [5, 6, 7].sum :=
  c8_offset_contiguity true 40 30 10 10 3 [5, 6, 7] rfl
    ((TiffBuilder.build_header
      ⟨true, mainEntries true 40 30 10 10 3 (List.replicate 3 0)
        (List.replicate 3 0)⟩ (-1)).toOption.getD []) (by rfl)
